import Mathlib

/-
Verification development for the GST reconciliation tool (src/streamlit.py).

The source is a pandas program.  We embed it shallowly:

* A dataframe cell is `Cell`: a string, an exact integer, or `Cell.null`
  (pandas NaN / Python None).  The spec recommends decimal arithmetic for the
  money columns; we model the numeric cells with exact integers, which the
  claims (sums, diffs, conservation) only need up to exactness.
* A transaction record (`Txn`) is one row of either input frame, with the nine
  schema columns.  Missing values are `Cell.null`.
* `reconcile_data` embeds lines 14-32: the outer merge on the six key columns
  with `indicator=True` produces, in order, for each purchase row either its
  cross matches with the GSTR2A rows of equal key or a single left-only row,
  followed by the unmatched GSTR2A rows; the per-column
  `fillna(column_from_gstr2a)` loop is `fillna`; the final projection is the
  `RRow` structure itself; `drop_duplicates` (keep the first occurrence) is
  `dropDuplicates`.  pandas joins NaN keys to NaN keys, which matches plain
  decidable equality on `Cell`.
* `get_best_match` embeds lines 10-12.  `process.extractOne` scans the choices
  and keeps the first choice attaining the maximal score (Python's `max`
  returns the first maximum); it returns `none` exactly for an empty choice
  list.  The similarity scorer (fuzzywuzzy `partial_ratio` composed with the
  default `full_process` preprocessing) is kept abstract as a function
  argument; the content of the claims does not depend on the metric itself.
-/

/-- One dataframe cell: a string, an exact integer, or a missing value
(pandas NaN / Python None). -/
inductive Cell where
  | str (s : String)
  | int (n : Int)
  | null
deriving DecidableEq

/-- One transaction record: a row of either input frame under the nine-column
schema.  Missing entries are `Cell.null`. -/
structure Txn where
  Invoice_Number : Cell
  Tax_Rate : Cell
  Taxable_Amount : Cell
  CGST : Cell
  SGST : Cell
  IGST : Cell
  Party_Name : Cell
  GSTIN : Cell
  Invoice_Date : Cell
deriving DecidableEq

/-- The six-column identity key of a transaction (the `primary_keys` of
line 15). -/
structure TKey where
  Invoice_Number : Cell
  Tax_Rate : Cell
  Taxable_Amount : Cell
  CGST : Cell
  SGST : Cell
  IGST : Cell
deriving DecidableEq

/-- Project a transaction to its identity key. -/
def rkey (t : Txn) : TKey :=
  ⟨t.Invoice_Number, t.Tax_Rate, t.Taxable_Amount, t.CGST, t.SGST, t.IGST⟩

/-- The `_merge` indicator column after the label mapping of lines 24-25:
`both ↦ 'Matched'`, `left_only ↦ 'Not in GSTR2A'`,
`right_only ↦ 'Not in Books'`. -/
inductive MergeLabel where
  | Matched
  | NotInGSTR2A
  | NotInBooks
deriving DecidableEq

/-- One reconciled output row: exactly the columns of the final projection of
line 30 (`additional_keys ++ primary_keys ++ ['_merge']`, in that order). -/
structure RRow where
  Party_Name : Cell
  GSTIN : Cell
  Invoice_Date : Cell
  Invoice_Number : Cell
  Tax_Rate : Cell
  Taxable_Amount : Cell
  CGST : Cell
  SGST : Cell
  IGST : Cell
  merge : MergeLabel
deriving DecidableEq

/-- The identity key carried by a reconciled row. -/
def rowKey (row : RRow) : TKey :=
  ⟨row.Invoice_Number, row.Tax_Rate, row.Taxable_Amount, row.CGST, row.SGST, row.IGST⟩

/-- `left.fillna(right)` on one cell (line 28): keep the left value unless it
is missing. -/
def fillna (l r : Cell) : Cell :=
  if l = Cell.null then r else l

/-- The merged row of a purchase row and a GSTR2A row with equal keys
(`_merge = 'both'`).  The descriptive columns are the purchase columns
filled from the suffixed GSTR2A columns by line 28. -/
def bothRow (b r : Txn) : RRow :=
  ⟨fillna b.Party_Name r.Party_Name, fillna b.GSTIN r.GSTIN,
   fillna b.Invoice_Date r.Invoice_Date,
   b.Invoice_Number, b.Tax_Rate, b.Taxable_Amount, b.CGST, b.SGST, b.IGST,
   MergeLabel.Matched⟩

/-- The merged row of an unmatched purchase row (`_merge = 'left_only'`): the
suffixed GSTR2A columns are NaN, so the fill of line 28 keeps the purchase
values. -/
def leftRow (b : Txn) : RRow :=
  ⟨b.Party_Name, b.GSTIN, b.Invoice_Date,
   b.Invoice_Number, b.Tax_Rate, b.Taxable_Amount, b.CGST, b.SGST, b.IGST,
   MergeLabel.NotInGSTR2A⟩

/-- The merged row of an unmatched GSTR2A row (`_merge = 'right_only'`): the
unsuffixed descriptive columns are NaN and line 28 fills them from the
suffixed GSTR2A columns. -/
def rightRow (r : Txn) : RRow :=
  ⟨r.Party_Name, r.GSTIN, r.Invoice_Date,
   r.Invoice_Number, r.Tax_Rate, r.Taxable_Amount, r.CGST, r.SGST, r.IGST,
   MergeLabel.NotInBooks⟩

/-- `drop_duplicates()` with the default `keep='first'` (line 31): keep the
first occurrence of every row value.  (Structural formulation: keep the
head and strip its copies from the deduplicated tail.) -/
def dropDuplicates {α : Type} [DecidableEq α] : List α → List α
  | [] => []
  | a :: l => a :: (dropDuplicates l).filter fun b => decide (b ≠ a)

/-- Lines 14-32 (`reconcile_data`): the outer merge of the two frames on the
six identity-key columns with `indicator=True`, the label mapping, the
descriptive-column fill, the fixed projection and `drop_duplicates`.
The outer merge is many-to-many: each purchase row is paired with every
GSTR2A row of equal key, an unmatched purchase row survives alone as
`left_only`, and the unmatched GSTR2A rows follow as `right_only`. -/
def reconcile_data (book ret : List Txn) : List RRow :=
  dropDuplicates (
    (book.flatMap fun b =>
      if (ret.filter fun r => decide (rkey r = rkey b)).isEmpty then [leftRow b]
      else (ret.filter fun r => decide (rkey r = rkey b)).map fun r => bothRow b r)
    ++ (ret.filter fun r => decide (¬ book.any fun b => decide (rkey b = rkey r))).map rightRow)

/-- Does some record of `l` carry the identity key `k`? -/
def hasKey (l : List Txn) (k : TKey) : Bool :=
  l.any fun t => decide (rkey t = k)

/-- The running maximum inside `process.extractOne`: Python's `max` over the
scored choices keeps the current best unless a strictly greater score
appears, hence it returns the first choice attaining the maximal score. -/
def pickBest {α : Type} (score : α → Nat) : α × Nat → List α → α × Nat
  | best, [] => best
  | best, c :: cs => pickBest score (if score c > best.2 then (c, score c) else best) cs

/-- `process.extractOne(query, choices, scorer)`: `none` exactly when the
choice list is empty, otherwise the first choice attaining the maximal
score, paired with that score.  The scorer is abstract; in the source it is
fuzzywuzzy `partial_ratio` composed with the default preprocessing. -/
def extractOne {α : Type} (scorer : α → α → Nat) (query : α) : List α → Option (α × Nat)
  | [] => none
  | c :: cs => some (pickBest (scorer query) (c, scorer query c) cs)

/-- Lines 10-12 (`get_best_match`): return the extracted best choice if its
score strictly exceeds the cutoff, else the name unchanged.  The source
defaults `cutoff` to 75; call sites here pass it explicitly. -/
def get_best_match {α : Type} (scorer : α → α → Nat) (name : α) (choices : List α)
    (cutoff : Nat) : α :=
  match extractOne scorer name choices with
  | some best => if best.2 > cutoff then best.1 else name
  | none => name

/-
The aggregator (lines 34-42, `create_pivot_summary`).

* Line 35 takes `gstr2a_data['Party_Name'].tolist()` — the full list, with
  duplicates and missing values kept.
* Line 36 assigns the canonicalized column back into `purchase_data`
  **in place**: the caller's purchase frame carries the canonicalized party
  names after the call.  We model the mutation by state passing: the second
  component of the result is the purchase collection as the call leaves it.
* `apply(get_best_match, ...)` runs on every purchase entry, and
  `process.extractOne` applies the default `full_process` preprocessing to
  the raw query and to every choice.  `full_process` runs a regex
  substitution on its argument and raises `TypeError` on a non-string value
  (a missing name read as NaN), so line 36 **crashes** whenever it actually
  processes a missing name: that happens exactly when the purchase side is
  non-empty (`apply` calls the function per element) and the choice list is
  non-empty (`extractWithoutOrder` returns before any processing when
  `len(choices) == 0`) and some party name of either side is not a string.
  `create_pivot_summary_run` is the aggregator with this failure path;
  `create_pivot_summary` below is its value on the completing domain, where
  the fuzzy metric only ever sees genuine strings.
* Lines 37-38 `groupby('Party_Name')[...].sum()` group by the distinct
  non-missing party names (pandas `dropna=True`), summing the four tax
  columns with NaN counted as 0 (pandas `skipna`).  pandas emits the groups
  sorted by key; the claims are insensitive to row order, and we keep the
  keys in first-occurrence order.
* Line 39 outer-merges the two aggregates on `Party_Name`; both sides have
  unique keys, so each party of either side yields exactly one row, with the
  absent side's sums NaN (`Option.none`).
* Line 41 computes `diff = books.fillna(0) - gstr2a.fillna(0)`.
-/

/-- The similarity score at the call site of line 36, as a function on cells:
the abstract metric on two genuine strings.  On the aggregator's
completing domain (see `create_pivot_summary_run`) the metric is never
applied to a non-string cell — fuzzywuzzy's preprocessing would raise
`TypeError` there instead of scoring — so the 0 returned for non-string
cells is a total-model default that no completing run observes. -/
def cellScore (scorer : String → String → Nat) : Cell → Cell → Nat
  | Cell.str a, Cell.str b => scorer a b
  | _, _ => 0

/-- Numeric reading of a cell for the pandas column sums: missing values are
skipped (count as 0). -/
def cellInt : Cell → Int
  | Cell.int n => n
  | _ => 0

/-- One row of a grouped-sum frame (`groupby('Party_Name')[...].sum()`). -/
structure GRow where
  Party_Name : Cell
  Taxable_Amount : Int
  CGST : Int
  SGST : Int
  IGST : Int
deriving DecidableEq

/-- Sum of one tax column over the records of one party. -/
def groupSumF (amt : Txn → Cell) (p : Cell) (rows : List Txn) : Int :=
  ((rows.filter fun t => decide (t.Party_Name = p)).map fun t => cellInt (amt t)).sum

/-- The group keys of `groupby('Party_Name')`: the distinct non-missing party
names, in first-occurrence order. -/
def parties (rows : List Txn) : List Cell :=
  dropDuplicates ((rows.map fun t => t.Party_Name).filter fun c => decide (c ≠ Cell.null))

/-- Lines 37-38: group the records by party name and sum the four tax
columns. -/
def groupbySum (rows : List Txn) : List GRow :=
  (parties rows).map fun p =>
    ⟨p, groupSumF (fun t => t.Taxable_Amount) p rows, groupSumF (fun t => t.CGST) p rows,
     groupSumF (fun t => t.SGST) p rows, groupSumF (fun t => t.IGST) p rows⟩

/-- One row of the final comparison frame of lines 39-41: the party name, the
two sides' sums (`none` where the side has no such party) and the four
diffs. -/
structure AggRow where
  Party_Name : Cell
  Taxable_Amount_books : Option Int
  CGST_books : Option Int
  SGST_books : Option Int
  IGST_books : Option Int
  Taxable_Amount_gstr2a : Option Int
  CGST_gstr2a : Option Int
  SGST_gstr2a : Option Int
  IGST_gstr2a : Option Int
  Taxable_Amount_diff : Int
  CGST_diff : Int
  SGST_diff : Int
  IGST_diff : Int
deriving DecidableEq

/-- Assemble one comparison row from the optional grouped rows of the two
sides; the diffs fill an absent side with 0 (line 41). -/
def mkAggRow (p : Cell) (gb gg : Option GRow) : AggRow :=
  ⟨p,
   gb.map fun g => g.Taxable_Amount, gb.map fun g => g.CGST,
   gb.map fun g => g.SGST, gb.map fun g => g.IGST,
   gg.map fun g => g.Taxable_Amount, gg.map fun g => g.CGST,
   gg.map fun g => g.SGST, gg.map fun g => g.IGST,
   (gb.map fun g => g.Taxable_Amount).getD 0 - (gg.map fun g => g.Taxable_Amount).getD 0,
   (gb.map fun g => g.CGST).getD 0 - (gg.map fun g => g.CGST).getD 0,
   (gb.map fun g => g.SGST).getD 0 - (gg.map fun g => g.SGST).getD 0,
   (gb.map fun g => g.IGST).getD 0 - (gg.map fun g => g.IGST).getD 0⟩

/-- Line 39: outer merge of the two grouped aggregates on `Party_Name`.  Both
sides have unique keys, so the merge is one row per party of either side:
the book parties in order (joined against the GSTR2A aggregate where
present), then the GSTR2A-only parties. -/
def outerMergeAgg (ba ga : List GRow) : List AggRow :=
  (ba.map fun g =>
    mkAggRow g.Party_Name (some g) (ga.find? fun h => decide (h.Party_Name = g.Party_Name)))
  ++ ((ga.filter fun h => decide (¬ ba.any fun g => decide (g.Party_Name = h.Party_Name))).map
      fun h => mkAggRow h.Party_Name none (some h))

/-- Lines 34-42 (`create_pivot_summary`), on the domain where the call
completes (see `create_pivot_summary_run` for the failure path of
line 36).  The first component is the comparison frame returned at
line 42; the second component is the purchase collection as the call
leaves it — line 36 overwrote its `Party_Name` column in place with the
canonicalized names. -/
def create_pivot_summary (scorer : String → String → Nat) (book ret : List Txn) :
    List AggRow × List Txn :=
  let gstr2a_parties := ret.map fun t => t.Party_Name
  let book' := book.map fun t =>
    { t with Party_Name := get_best_match (cellScore scorer) t.Party_Name gstr2a_parties 75 }
  (outerMergeAgg (groupbySum book') (groupbySum ret), book')

/-- Is the cell a genuine string (the only values fuzzywuzzy's preprocessing
accepts)? -/
def isStrCell : Cell → Bool
  | Cell.str _ => true
  | _ => false

/-- Lines 34-42 with the failure path of line 36.  `apply` calls
`get_best_match` once per purchase record; with a non-empty choice list,
`process.extractOne` runs `full_process` on the raw query and on every
choice, and `full_process` raises `TypeError` on a non-string (missing)
value.  So the call raises exactly when both collections are non-empty and
some party name of either collection is not a string; otherwise (empty
purchase side: `apply` never calls the function; empty GSTR2A side:
`extractWithoutOrder` returns before processing anything) it completes
with the value of `create_pivot_summary`. -/
def create_pivot_summary_run (scorer : String → String → Nat) (book ret : List Txn) :
    Except String (List AggRow × List Txn) :=
  if book.isEmpty || ret.isEmpty ||
      ((book.all fun t => isStrCell t.Party_Name) && (ret.all fun t => isStrCell t.Party_Name)) then
    Except.ok (create_pivot_summary scorer book ret)
  else
    Except.error "TypeError"

/-- The aggregator as the spec words it: the reference list is the list of
distinct `Party_Name` values of the GSTR2A side (first occurrences, in
order); everything else as `create_pivot_summary`.  Used to state the
refinement claim that duplicates in the reference list are immaterial. -/
def create_pivot_summary_distinct (scorer : String → String → Nat) (book ret : List Txn) :
    List AggRow × List Txn :=
  let referenceNames := dropDuplicates (ret.map fun t => t.Party_Name)
  let book' := book.map fun t =>
    { t with Party_Name := get_best_match (cellScore scorer) t.Party_Name referenceNames 75 }
  (outerMergeAgg (groupbySum book') (groupbySum ret), book')

/-- Lines 95-96 of `app()`: the reconciliation is computed first, on the raw
records, and only then does the aggregator run (and mutate the purchase
collection). -/
def app_core (scorer : String → String → Nat) (book ret : List Txn) :
    List RRow × (List AggRow × List Txn) :=
  let reconciliation_data := reconcile_data book ret
  let pivot_summary := create_pivot_summary scorer book ret
  (reconciliation_data, pivot_summary)

/-
Header-level view of the two functions, for the failure-condition claim.

The core functions receive pandas dataframes, and their only failure mode in
the source is a pandas `KeyError` when a referenced column is absent:

* `pd.merge(..., on=primary_keys, ...)` (line 17) raises `KeyError` when some
  key column is missing from either frame.
* The fill loop (lines 26-29) is guarded by
  `if key + '_from_gstr2a' in reconciliation.columns`, and that suffixed
  column exists exactly when the descriptive column is present in **both**
  frames (pandas suffixes only the overlapping non-key columns), so the loop
  itself never raises.
* The final projection `reconciliation[final_columns_order]` (line 31) raises
  `KeyError` exactly when some descriptive column is present in **neither**
  frame: a descriptive column present in only one frame survives the merge
  under its own unsuffixed name.
* In `create_pivot_summary`, lines 35-38 read `Party_Name` of both frames and
  the four tax columns of both frames, raising `KeyError` when one is absent.

For the successful cases, reading a merged frame in which a descriptive
column is missing from one side gives exactly the same rows as reading that
side with the column present and entirely NaN, so the row data of a frame is
modelled by reading each of the nine schema columns, with `Cell.null` for an
absent column (`toTxn`), and the checked functions delegate to the typed
embeddings above.
-/

/-- A raw dataframe row: an association list from column names to cells. -/
abbrev DRow := List (String × Cell)

/-- A dataframe: its column names and its rows. -/
structure DF where
  header : List String
  rows : List DRow
deriving DecidableEq

/-- Read one column of a row: `Cell.null` when the column is absent from the
frame (or the entry is missing). -/
def cellAt (hdr : List String) (row : DRow) (c : String) : Cell :=
  if hdr.contains c then (row.lookup c).getD Cell.null else Cell.null

/-- Read a raw row as a typed transaction record under the nine-column
schema; absent columns read as all-missing. -/
def toTxn (hdr : List String) (row : DRow) : Txn :=
  ⟨cellAt hdr row "Invoice_Number", cellAt hdr row "Tax_Rate",
   cellAt hdr row "Taxable_Amount", cellAt hdr row "CGST",
   cellAt hdr row "SGST", cellAt hdr row "IGST",
   cellAt hdr row "Party_Name", cellAt hdr row "GSTIN",
   cellAt hdr row "Invoice_Date"⟩

/-- Line 15. -/
def primary_keys : List String :=
  ["Invoice_Number", "Tax_Rate", "Taxable_Amount", "CGST", "SGST", "IGST"]

/-- Line 16. -/
def additional_keys : List String :=
  ["Party_Name", "GSTIN", "Invoice_Date"]

/-- Line 30. -/
def final_columns_order : List String :=
  additional_keys ++ primary_keys ++ ["_merge"]

/-- The mapped `_merge` labels as cells (lines 24-25). -/
def statusCell : MergeLabel → Cell
  | MergeLabel.Matched => Cell.str "Matched"
  | MergeLabel.NotInGSTR2A => Cell.str "Not in GSTR2A"
  | MergeLabel.NotInBooks => Cell.str "Not in Books"

/-- Render a reconciled row under the projected column order of line 30. -/
def rrowToDRow (row : RRow) : DRow :=
  [("Party_Name", row.Party_Name), ("GSTIN", row.GSTIN),
   ("Invoice_Date", row.Invoice_Date), ("Invoice_Number", row.Invoice_Number),
   ("Tax_Rate", row.Tax_Rate), ("Taxable_Amount", row.Taxable_Amount),
   ("CGST", row.CGST), ("SGST", row.SGST), ("IGST", row.IGST),
   ("_merge", statusCell row.merge)]

/-- `reconcile_data` on raw frames, with its failure behavior: a `KeyError`
when a merge key is missing from either frame (line 17) or when a
descriptive column is missing from both frames (the projection of
line 31); otherwise the typed reconciliation of the readable rows. -/
def reconcile_data_df (book ret : DF) : Except String DF :=
  if (primary_keys.all book.header.contains && primary_keys.all ret.header.contains) then
    if additional_keys.all fun k => book.header.contains k || ret.header.contains k then
      Except.ok
        ⟨final_columns_order,
         (reconcile_data (book.rows.map (toTxn book.header))
            (ret.rows.map (toTxn ret.header))).map rrowToDRow⟩
    else Except.error "KeyError"
  else Except.error "KeyError"

/-- The columns the aggregator reads from both frames (lines 35-38). -/
def pivot_fields : List String :=
  ["Party_Name", "Taxable_Amount", "CGST", "SGST", "IGST"]

/-- The column names of the comparison frame of lines 39-41. -/
def pivotHeader : List String :=
  ["Party_Name",
   "Taxable_Amount_books", "CGST_books", "SGST_books", "IGST_books",
   "Taxable_Amount_gstr2a", "CGST_gstr2a", "SGST_gstr2a", "IGST_gstr2a",
   "Taxable_Amount_diff", "CGST_diff", "SGST_diff", "IGST_diff"]

/-- An optional sum as a cell: an absent side is NaN. -/
def optIntCell : Option Int → Cell
  | some n => Cell.int n
  | none => Cell.null

/-- Render one comparison row. -/
def aggRowToDRow (row : AggRow) : DRow :=
  [("Party_Name", row.Party_Name),
   ("Taxable_Amount_books", optIntCell row.Taxable_Amount_books),
   ("CGST_books", optIntCell row.CGST_books),
   ("SGST_books", optIntCell row.SGST_books),
   ("IGST_books", optIntCell row.IGST_books),
   ("Taxable_Amount_gstr2a", optIntCell row.Taxable_Amount_gstr2a),
   ("CGST_gstr2a", optIntCell row.CGST_gstr2a),
   ("SGST_gstr2a", optIntCell row.SGST_gstr2a),
   ("IGST_gstr2a", optIntCell row.IGST_gstr2a),
   ("Taxable_Amount_diff", Cell.int row.Taxable_Amount_diff),
   ("CGST_diff", Cell.int row.CGST_diff),
   ("SGST_diff", Cell.int row.SGST_diff),
   ("IGST_diff", Cell.int row.IGST_diff)]

/-- `create_pivot_summary` on raw frames, with its failure behavior in
source order: line 35 reads `Party_Name` of the GSTR2A frame and line 36
reads (and overwrites) `Party_Name` of the purchase frame — a `KeyError`
when the column is absent; then line 36's `apply` raises `TypeError` when
both frames are non-empty and some `Party_Name` value of either frame is
not a string (fuzzywuzzy's `full_process` on a missing name — before the
group-bys run); then lines 37-38 read the four tax columns of each frame,
a `KeyError` when one is absent.  Otherwise the typed aggregation of the
readable rows. -/
def create_pivot_summary_df (scorer : String → String → Nat) (book ret : DF) :
    Except String DF :=
  if ret.header.contains "Party_Name" then
    if book.header.contains "Party_Name" then
      if book.rows.isEmpty || ret.rows.isEmpty ||
          ((book.rows.all fun row => isStrCell (cellAt book.header row "Party_Name")) &&
            (ret.rows.all fun row => isStrCell (cellAt ret.header row "Party_Name"))) then
        if ["Taxable_Amount", "CGST", "SGST", "IGST"].all book.header.contains then
          if ["Taxable_Amount", "CGST", "SGST", "IGST"].all ret.header.contains then
            Except.ok
              ⟨pivotHeader,
               ((create_pivot_summary scorer (book.rows.map (toTxn book.header))
                   (ret.rows.map (toTxn ret.header))).1).map aggRowToDRow⟩
          else Except.error "KeyError"
        else Except.error "KeyError"
      else Except.error "TypeError"
    else Except.error "KeyError"
  else Except.error "KeyError"

/-! Basic lemmas about `dropDuplicates`. -/

theorem mem_dropDuplicates {α : Type} [DecidableEq α] (a : α) (l : List α) :
    a ∈ dropDuplicates l ↔ a ∈ l := by
  induction l with
  | nil => simp [dropDuplicates]
  | cons b l ih =>
    simp only [dropDuplicates, List.mem_cons, List.mem_filter, decide_eq_true_eq, ne_eq, ih]
    by_cases hab : a = b
    · simp [hab]
    · simp [hab]

theorem nodup_dropDuplicates {α : Type} [DecidableEq α] (l : List α) :
    (dropDuplicates l).Nodup := by
  induction l with
  | nil => simp [dropDuplicates]
  | cons b l ih =>
    rw [dropDuplicates, List.nodup_cons]
    refine ⟨?_, ih.filter _⟩
    intro hb
    rcases List.mem_filter.1 hb with ⟨_, hne⟩
    simp at hne

theorem dropDuplicates_subset {α : Type} [DecidableEq α] {l : List α} {a : α}
    (h : a ∈ dropDuplicates l) : a ∈ l :=
  (mem_dropDuplicates a l).1 h

/-- Split of a deduplicated list at a distinguished element: removing later
duplicates keeps the first occurrence of `c` in place, with a prefix drawn
from the old prefix and a suffix drawn from the old suffix. -/
theorem dropDuplicates_split {α : Type} [DecidableEq α] (c : α) (l₂ : List α) :
    ∀ (l₁ : List α), c ∉ l₁ →
      ∃ xs ys, dropDuplicates (l₁ ++ c :: l₂) = xs ++ c :: ys ∧
        (∀ x ∈ xs, x ∈ l₁) ∧ (∀ y ∈ ys, y ∈ l₂)
  | [], _ => by
      refine ⟨[], (dropDuplicates l₂).filter fun b => decide (b ≠ c), ?_, ?_, ?_⟩
      · rw [List.nil_append, dropDuplicates]
        rfl
      · simp
      · intro y hy
        exact dropDuplicates_subset (List.mem_of_mem_filter hy)
  | a :: t, hc => by
      have hca : ¬ (c = a) := fun h => hc (by simp [h])
      obtain ⟨xs, ys, heq, hxs, hys⟩ :=
        dropDuplicates_split c l₂ t fun h => hc (List.mem_cons_of_mem _ h)
      refine ⟨a :: xs.filter (fun b => decide (b ≠ a)),
        ys.filter (fun b => decide (b ≠ a)), ?_, ?_, ?_⟩
      · rw [List.cons_append, dropDuplicates, heq, List.filter_append, List.filter_cons]
        simp [hca]
      · intro x hx
        rcases List.mem_cons.1 hx with rfl | hx'
        · exact List.mem_cons_self _ _
        · exact List.mem_cons_of_mem _ (hxs x (List.mem_of_mem_filter hx'))
      · intro y hy
        exact hys y (List.mem_of_mem_filter hy)

/-! Lemmas about the running maximum of `process.extractOne`. -/

theorem pickBest_max {α : Type} (score : α → Nat) :
    ∀ (l : List α) (best : α × Nat),
      best.2 ≤ (pickBest score best l).2 ∧
      (∀ a ∈ l, score a ≤ (pickBest score best l).2) ∧
      (pickBest score best l = best ∨
        ((pickBest score best l).1 ∈ l ∧
          (pickBest score best l).2 = score (pickBest score best l).1))
  | [], best => by simp [pickBest]
  | c :: cs, best => by
      rw [pickBest]
      by_cases h : score c > best.2
      · rw [if_pos h]
        obtain ⟨h1, h2, h3⟩ := pickBest_max score cs (c, score c)
        refine ⟨le_trans (le_of_lt h) h1, ?_, ?_⟩
        · intro a ha
          rcases List.mem_cons.1 ha with rfl | ha'
          · exact h1
          · exact h2 a ha'
        · rcases h3 with h3 | h3
          · right
            rw [h3]
            exact ⟨List.mem_cons_self _ _, rfl⟩
          · exact Or.inr ⟨List.mem_cons_of_mem _ h3.1, h3.2⟩
      · rw [if_neg h]
        obtain ⟨h1, h2, h3⟩ := pickBest_max score cs best
        push_neg at h
        refine ⟨h1, ?_, ?_⟩
        · intro a ha
          rcases List.mem_cons.1 ha with rfl | ha'
          · exact le_trans h h1
          · exact h2 a ha'
        · rcases h3 with h3 | h3
          · exact Or.inl h3
          · exact Or.inr ⟨List.mem_cons_of_mem _ h3.1, h3.2⟩

theorem pickBest_all_le {α : Type} (score : α → Nat) :
    ∀ (l : List α) (best : α × Nat), (∀ a ∈ l, score a ≤ best.2) →
      pickBest score best l = best
  | [], _, _ => rfl
  | c :: cs, best, h => by
      rw [pickBest, if_neg (by simpa using h c (List.mem_cons_self _ _))]
      exact pickBest_all_le score cs best fun a ha => h a (List.mem_cons_of_mem _ ha)

theorem pickBest_reach {α : Type} (score : α → Nat) (c : α) :
    ∀ (l₁ : List α) (l₂ : List α) (best : α × Nat), best.2 < score c →
      (∀ a ∈ l₁, score a < score c) → (∀ a ∈ l₂, score a ≤ score c) →
      pickBest score best (l₁ ++ c :: l₂) = (c, score c)
  | [], l₂, best, hb, _, h2 => by
      rw [List.nil_append, pickBest, if_pos hb]
      exact pickBest_all_le score l₂ (c, score c) h2
  | a :: t, l₂, best, hb, h1, h2 => by
      rw [List.cons_append, pickBest]
      by_cases h : score a > best.2
      · rw [if_pos h]
        exact pickBest_reach score c t l₂ (a, score a)
          (h1 a (List.mem_cons_self _ _)) (fun x hx => h1 x (List.mem_cons_of_mem _ hx)) h2
      · rw [if_neg h]
        exact pickBest_reach score c t l₂ best hb
          (fun x hx => h1 x (List.mem_cons_of_mem _ hx)) h2

theorem pickBest_split {α : Type} (score : α → Nat) :
    ∀ (l : List α) (best : α × Nat),
      pickBest score best l = best ∨
      ∃ l₁ c l₂, l = l₁ ++ c :: l₂ ∧ pickBest score best l = (c, score c) ∧
        best.2 < score c ∧ ∀ a ∈ l₁, score a < score c
  | [], _ => Or.inl rfl
  | c :: cs, best => by
      rw [pickBest]
      by_cases h : score c > best.2
      · rw [if_pos h]
        rcases pickBest_split score cs (c, score c) with h3 | ⟨t₁, d, t₂, heq, hpb, hlt, hfirst⟩
        · exact Or.inr ⟨[], c, cs, rfl, h3, h, by simp⟩
        · refine Or.inr ⟨c :: t₁, d, t₂, by rw [heq, List.cons_append], hpb, lt_trans h hlt, ?_⟩
          intro a ha
          rcases List.mem_cons.1 ha with rfl | ha'
          · exact hlt
          · exact hfirst a ha'
      · rw [if_neg h]
        push_neg at h
        rcases pickBest_split score cs best with h3 | ⟨t₁, d, t₂, heq, hpb, hlt, hfirst⟩
        · exact Or.inl h3
        · refine Or.inr ⟨c :: t₁, d, t₂, by rw [heq, List.cons_append], hpb, hlt, ?_⟩
          intro a ha
          rcases List.mem_cons.1 ha with rfl | ha'
          · exact lt_of_le_of_lt h hlt
          · exact hfirst a ha'

/-! The extracted best match: maximality, first-occurrence split, and
congruence of `get_best_match` under reference-list cleanup. -/

theorem get_best_match_of_some {α : Type} (scorer : α → α → Nat) (name : α)
    (choices : List α) (cutoff : Nat) {m : α} {s : Nat}
    (he : extractOne scorer name choices = some (m, s)) :
    get_best_match scorer name choices cutoff = if s > cutoff then m else name := by
  rw [get_best_match, he]

theorem get_best_match_of_none {α : Type} (scorer : α → α → Nat) (name : α)
    (choices : List α) (cutoff : Nat)
    (he : extractOne scorer name choices = none) :
    get_best_match scorer name choices cutoff = name := by
  rw [get_best_match, he]

theorem extractOne_eq_none {α : Type} (scorer : α → α → Nat) (query : α) (l : List α) :
    extractOne scorer query l = none ↔ l = [] := by
  cases l with
  | nil => simp [extractOne]
  | cons c cs => simp [extractOne]

theorem extractOne_max {α : Type} (scorer : α → α → Nat) (query : α) {l : List α}
    {m : α} {s : Nat} (h : extractOne scorer query l = some (m, s)) :
    m ∈ l ∧ scorer query m = s ∧ ∀ a ∈ l, scorer query a ≤ s := by
  cases l with
  | nil => simp [extractOne] at h
  | cons c cs =>
    rw [extractOne] at h
    obtain hpb := Option.some.inj h
    obtain ⟨h1, h2, h3⟩ := pickBest_max (scorer query) cs (c, scorer query c)
    rw [hpb] at h1 h2 h3
    rcases h3 with h3 | h3
    · injection h3 with e1 e2
      subst e1
      subst e2
      refine ⟨List.mem_cons_self _ _, rfl, ?_⟩
      intro a ha
      rcases List.mem_cons.1 ha with rfl | ha'
      · exact le_refl _
      · exact h2 a ha'
    · refine ⟨List.mem_cons_of_mem _ h3.1, h3.2.symm, ?_⟩
      intro a ha
      rcases List.mem_cons.1 ha with rfl | ha'
      · exact h1
      · exact h2 a ha'

theorem extractOne_split {α : Type} (scorer : α → α → Nat) (query : α) {l : List α}
    {m : α} {s : Nat} (h : extractOne scorer query l = some (m, s)) :
    ∃ l₁ l₂, l = l₁ ++ m :: l₂ ∧ scorer query m = s ∧ ∀ a ∈ l₁, scorer query a < s := by
  cases l with
  | nil => simp [extractOne] at h
  | cons c cs =>
    rw [extractOne] at h
    obtain hpb := Option.some.inj h
    rcases pickBest_split (scorer query) cs (c, scorer query c) with h3 | ⟨t₁, d, t₂, heq, hres, hlt, hfirst⟩
    · rw [h3] at hpb
      injection hpb.symm with e1 e2
      subst e1
      subst e2
      exact ⟨[], cs, rfl, rfl, by simp⟩
    · rw [hres] at hpb
      injection hpb.symm with e1 e2
      subst e1
      subst e2
      refine ⟨c :: t₁, t₂, by rw [heq, List.cons_append], rfl, ?_⟩
      intro a ha
      rcases List.mem_cons.1 ha with rfl | ha'
      · exact hlt
      · exact hfirst a ha'

theorem extractOne_of_split {α : Type} (scorer : α → α → Nat) (query : α)
    (l₁ l₂ : List α) (c : α)
    (h1 : ∀ a ∈ l₁, scorer query a < scorer query c)
    (h2 : ∀ a ∈ l₂, scorer query a ≤ scorer query c) :
    extractOne scorer query (l₁ ++ c :: l₂) = some (c, scorer query c) := by
  cases l₁ with
  | nil =>
    rw [List.nil_append, extractOne]
    exact congrArg some (pickBest_all_le (scorer query) l₂ (c, scorer query c) h2)
  | cons a t =>
    rw [List.cons_append, extractOne]
    refine congrArg some (pickBest_reach (scorer query) c t l₂ (a, scorer query a)
      (h1 a (List.mem_cons_self _ _)) (fun x hx => h1 x (List.mem_cons_of_mem _ hx)) h2)

/-- Duplicates in the reference list do not change the best match: the first
occurrence of the maximal-scoring entry is the same before and after
deduplication. -/
theorem get_best_match_dropDuplicates {α : Type} [DecidableEq α]
    (scorer : α → α → Nat) (name : α) (choices : List α) (cutoff : Nat) :
    get_best_match scorer name (dropDuplicates choices) cutoff
      = get_best_match scorer name choices cutoff := by
  rcases he : extractOne scorer name choices with _ | ⟨m, s⟩
  · have hnil : choices = [] := (extractOne_eq_none scorer name choices).1 he
    subst hnil
    simp [dropDuplicates]
  · obtain ⟨hm, hs, hall⟩ := extractOne_max scorer name he
    by_cases hcut : s > cutoff
    · obtain ⟨l₁, l₂, hsplit, hscm, hstrict⟩ := extractOne_split scorer name he
      have hnotm : m ∉ l₁ := fun hmem => lt_irrefl s (hscm ▸ hstrict m hmem)
      obtain ⟨xs, ys, hdd, hxs, hys⟩ := dropDuplicates_split m l₂ l₁ hnotm
      have hxs' : ∀ a ∈ xs, scorer name a < scorer name m := by
        intro a ha
        rw [hscm]
        exact hstrict a (hxs a ha)
      have hys' : ∀ a ∈ ys, scorer name a ≤ scorer name m := by
        intro a ha
        rw [hscm]
        refine hall a ?_
        rw [hsplit]
        exact List.mem_append_right _ (List.mem_cons_of_mem _ (hys a ha))
      have he' : extractOne scorer name (dropDuplicates choices) = some (m, s) := by
        rw [hsplit, hdd, extractOne_of_split scorer name xs ys m hxs' hys', hscm]
      rw [get_best_match_of_some scorer name _ cutoff he',
        get_best_match_of_some scorer name _ cutoff he]
    · rcases he2 : extractOne scorer name (dropDuplicates choices) with _ | ⟨m', s'⟩
      · rw [get_best_match_of_none scorer name _ cutoff he2,
          get_best_match_of_some scorer name _ cutoff he, if_neg hcut]
      · obtain ⟨hm', hs', _⟩ := extractOne_max scorer name he2
        have hle : s' ≤ s := hs' ▸ hall m' (dropDuplicates_subset hm')
        have hcut' : ¬ s' > cutoff := fun hgt => hcut (lt_of_lt_of_le hgt hle)
        rw [get_best_match_of_some scorer name _ cutoff he2,
          get_best_match_of_some scorer name _ cutoff he, if_neg hcut, if_neg hcut']

/-- Dropping zero-scoring entries from the reference list does not change the
best match when the cutoff is positive. -/
theorem get_best_match_filter_zero {α : Type} (scorer : α → α → Nat) (name : α)
    (p : α → Bool) (choices : List α) (cutoff : Nat)
    (hz : ∀ a ∈ choices, p a = false → scorer name a = 0) (hcut : 0 < cutoff) :
    get_best_match scorer name (choices.filter p) cutoff
      = get_best_match scorer name choices cutoff := by
  rcases he : extractOne scorer name choices with _ | ⟨m, s⟩
  · have hnil : choices = [] := (extractOne_eq_none scorer name choices).1 he
    subst hnil
    rfl
  · obtain ⟨hm, hs, hall⟩ := extractOne_max scorer name he
    by_cases hcut2 : s > cutoff
    · obtain ⟨l₁, l₂, hsplit, hscm, hstrict⟩ := extractOne_split scorer name he
      have hpm : p m = true := by
        by_contra hpm
        have h0 : scorer name m = 0 := hz m hm (Bool.eq_false_iff.2 hpm)
        rw [hscm] at h0
        subst h0
        exact absurd hcut2 (by omega)
      have hfs : choices.filter p = l₁.filter p ++ m :: l₂.filter p := by
        rw [hsplit, List.filter_append, List.filter_cons, if_pos hpm]
      have hxs' : ∀ a ∈ l₁.filter p, scorer name a < scorer name m := by
        intro a ha
        rw [hscm]
        exact hstrict a (List.mem_of_mem_filter ha)
      have hys' : ∀ a ∈ l₂.filter p, scorer name a ≤ scorer name m := by
        intro a ha
        rw [hscm]
        refine hall a ?_
        rw [hsplit]
        exact List.mem_append_right _ (List.mem_cons_of_mem _ (List.mem_of_mem_filter ha))
      have he' : extractOne scorer name (choices.filter p) = some (m, s) := by
        rw [hfs, extractOne_of_split scorer name _ _ m hxs' hys', hscm]
      rw [get_best_match_of_some scorer name _ cutoff he',
        get_best_match_of_some scorer name _ cutoff he]
    · rcases he2 : extractOne scorer name (choices.filter p) with _ | ⟨m', s'⟩
      · rw [get_best_match_of_none scorer name _ cutoff he2,
          get_best_match_of_some scorer name _ cutoff he, if_neg hcut2]
      · obtain ⟨hm', hs', _⟩ := extractOne_max scorer name he2
        have hle : s' ≤ s := hs' ▸ hall m' (List.mem_of_mem_filter hm')
        have hcut' : ¬ s' > cutoff := fun hgt => hcut2 (lt_of_lt_of_le hgt hle)
        rw [get_best_match_of_some scorer name _ cutoff he2,
          get_best_match_of_some scorer name _ cutoff he, if_neg hcut2, if_neg hcut']

/-- Membership in the reconciliation output: every output row is a matched
pair, an unmatched purchase row, or an unmatched GSTR2A row, and
conversely. -/
theorem mem_reconcile_iff (book ret : List Txn) (row : RRow) :
    row ∈ reconcile_data book ret ↔
      (∃ b ∈ book, ∃ r ∈ ret, rkey r = rkey b ∧ row = bothRow b r) ∨
      (∃ b ∈ book, (∀ r ∈ ret, rkey r ≠ rkey b) ∧ row = leftRow b) ∨
      (∃ r ∈ ret, (∀ b ∈ book, rkey b ≠ rkey r) ∧ row = rightRow r) := by
  rw [reconcile_data, mem_dropDuplicates, List.mem_append]
  constructor
  · rintro (h | h)
    · rcases List.mem_flatMap.1 h with ⟨b, hb, hrow⟩
      by_cases hms : (ret.filter fun r => decide (rkey r = rkey b)).isEmpty = true
      · rw [if_pos hms] at hrow
        have hempty : ∀ r ∈ ret, rkey r ≠ rkey b := by
          intro r hr
          have hnp := List.filter_eq_nil_iff.1 (List.isEmpty_iff.1 hms) r hr
          simpa using hnp
        exact Or.inr (Or.inl ⟨b, hb, hempty, List.mem_singleton.1 hrow⟩)
      · rw [if_neg hms] at hrow
        rcases List.mem_map.1 hrow with ⟨r, hr, hrow'⟩
        rcases List.mem_filter.1 hr with ⟨hr1, hr2⟩
        exact Or.inl ⟨b, hb, r, hr1, of_decide_eq_true hr2, hrow'.symm⟩
    · rcases List.mem_map.1 h with ⟨r, hr, hrow⟩
      rcases List.mem_filter.1 hr with ⟨hr1, hr2⟩
      have hnb : ∀ b ∈ book, rkey b ≠ rkey r := by
        intro b hb heq
        exact of_decide_eq_true hr2 (List.any_eq_true.2 ⟨b, hb, decide_eq_true heq⟩)
      exact Or.inr (Or.inr ⟨r, hr1, hnb, hrow.symm⟩)
  · rintro (⟨b, hb, r, hr, hk, rfl⟩ | ⟨b, hb, hempty, rfl⟩ | ⟨r, hr, hnb, rfl⟩)
    · refine Or.inl (List.mem_flatMap.2 ⟨b, hb, ?_⟩)
      have hmem : r ∈ ret.filter fun x => decide (rkey x = rkey b) :=
        List.mem_filter.2 ⟨hr, decide_eq_true hk⟩
      have hne : ¬ ((ret.filter fun x => decide (rkey x = rkey b)).isEmpty = true) := by
        intro hiso
        rw [List.isEmpty_iff.1 hiso] at hmem
        exact List.not_mem_nil _ hmem
      rw [if_neg hne]
      exact List.mem_map.2 ⟨r, hmem, rfl⟩
    · refine Or.inl (List.mem_flatMap.2 ⟨b, hb, ?_⟩)
      have hiso : (ret.filter fun x => decide (rkey x = rkey b)).isEmpty = true := by
        rw [List.isEmpty_iff, List.filter_eq_nil_iff]
        intro a ha
        simpa using hempty a ha
      rw [if_pos hiso]
      simp
    · refine Or.inr (List.mem_map.2 ⟨r, List.mem_filter.2 ⟨hr, ?_⟩, rfl⟩)
      refine decide_eq_true ?_
      intro hany
      rcases List.any_eq_true.1 hany with ⟨b, hb, hbd⟩
      exact hnb b hb (of_decide_eq_true hbd)

/-! Concrete fixtures used by the witnesses and counterexamples (drawn from
the spec's end-to-end scenario). -/

/-- Book row of the spec's end-to-end scenario. -/
def tA : Txn :=
  ⟨Cell.str "A1", Cell.int 18, Cell.int 1000, Cell.int 90, Cell.int 90, Cell.int 0,
   Cell.str "Acme Corp", Cell.str "G1", Cell.str "2024-01-01"⟩

/-- A second book row with the same identity key as `tA` but another party
name. -/
def tB : Txn :=
  ⟨Cell.str "A1", Cell.int 18, Cell.int 1000, Cell.int 90, Cell.int 90, Cell.int 0,
   Cell.str "Bello Ltd", Cell.str "G2", Cell.str "2024-01-02"⟩

/-- Return row of the spec's end-to-end scenario: same identity key as `tA`,
GSTR2A party name, missing GSTIN. -/
def tR : Txn :=
  ⟨Cell.str "A1", Cell.int 18, Cell.int 1000, Cell.int 90, Cell.int 90, Cell.int 0,
   Cell.str "ACME CORPORATION", Cell.null, Cell.str "2024-01-05"⟩

/-- A book row whose party name is missing. -/
def tN : Txn :=
  ⟨Cell.str "B7", Cell.int 18, Cell.int 100, Cell.int 9, Cell.int 9, Cell.int 0,
   Cell.null, Cell.str "G3", Cell.str "2024-02-01"⟩

/-- A scorer that gives every pair score 0 (everything is dissimilar). -/
def scorer0 : String → String → Nat := fun _ _ => 0

/-- A scorer that gives every pair score 100 (everything matches). -/
def scorer100 : String → String → Nat := fun _ _ => 100

/-- A scorer that scores by the length of the candidate. -/
def scorerLen : String → String → Nat := fun _ c => c.length


/-- Membership of a key in a collection, unfolded. -/
theorem hasKey_eq_true_iff (l : List Txn) (k : TKey) :
    hasKey l k = true ↔ ∃ t ∈ l, rkey t = k := by
  simp [hasKey, List.any_eq_true]

/-- Absence of a key from a collection, unfolded. -/
theorem hasKey_eq_false_iff (l : List Txn) (k : TKey) :
    hasKey l k = false ↔ ∀ t ∈ l, rkey t ≠ k := by
  simp [hasKey, List.any_eq_false]

/-- C1, counterexample.  The claim says every identity key present in either
input appears in **exactly one** output row.  Two purchase rows sharing one
identity key but differing in party name survive `drop_duplicates` as two
distinct left-only rows carrying the same key. -/
theorem C1_counterexample :
    hasKey [tA, tB] (rkey tA) = true ∧
    ((reconcile_data [tA, tB] []).countP fun row => decide (rowKey row = rkey tA)) = 2 := by
  decide

/-- C1, amended.  Every identity key present in either input appears in at
least one output row (exactly one when the rows carrying it resolve to
equal projected rows), and the status of every output row carrying a key
is determined by the key's presence: in both inputs → Matched, only in the
purchase input → Not in GSTR2A, only in the GSTR2A input → Not in Books —
so the three statuses partition the output rows disjointly and
exhaustively by key presence. -/
theorem C1_amended (book ret : List Txn) (k : TKey) :
    ((hasKey book k || hasKey ret k) = true →
      ∃ row ∈ reconcile_data book ret, rowKey row = k) ∧
    (∀ row ∈ reconcile_data book ret, rowKey row = k →
      ((row.merge = MergeLabel.Matched ↔ hasKey book k = true ∧ hasKey ret k = true) ∧
       (row.merge = MergeLabel.NotInGSTR2A ↔ hasKey book k = true ∧ hasKey ret k = false) ∧
       (row.merge = MergeLabel.NotInBooks ↔ hasKey book k = false ∧ hasKey ret k = true))) := by
  refine ⟨?_, ?_⟩
  · intro h
    have h' : hasKey book k = true ∨ hasKey ret k = true := by simpa using h
    by_cases hb : hasKey book k = true
    · obtain ⟨b, hbmem, hbk⟩ := (hasKey_eq_true_iff book k).1 hb
      by_cases hr : ∃ r ∈ ret, rkey r = rkey b
      · obtain ⟨r, hrmem, hrk⟩ := hr
        exact ⟨bothRow b r,
          (mem_reconcile_iff book ret _).2 (Or.inl ⟨b, hbmem, r, hrmem, hrk, rfl⟩), hbk⟩
      · push_neg at hr
        exact ⟨leftRow b,
          (mem_reconcile_iff book ret _).2 (Or.inr (Or.inl ⟨b, hbmem, hr, rfl⟩)), hbk⟩
    · have hrt : hasKey ret k = true := by
        rcases h' with h1 | h1
        · exact absurd h1 hb
        · exact h1
      obtain ⟨r, hrmem, hrk⟩ := (hasKey_eq_true_iff ret k).1 hrt
      have hnb : ∀ b ∈ book, rkey b ≠ rkey r := by
        intro b hbm heq
        exact hb ((hasKey_eq_true_iff book k).2 ⟨b, hbm, heq.trans hrk⟩)
      exact ⟨rightRow r,
        (mem_reconcile_iff book ret _).2 (Or.inr (Or.inr ⟨r, hrmem, hnb, rfl⟩)), hrk⟩
  · intro row hrow hkey
    rcases (mem_reconcile_iff book ret row).1 hrow with
      ⟨b, hb, r, hr, hk, rfl⟩ | ⟨b, hb, hempty, rfl⟩ | ⟨r, hr, hnb, rfl⟩
    · have hbk : rkey b = k := hkey
      have h1 : hasKey book k = true := (hasKey_eq_true_iff book k).2 ⟨b, hb, hbk⟩
      have h2 : hasKey ret k = true := (hasKey_eq_true_iff ret k).2 ⟨r, hr, hk.trans hbk⟩
      refine ⟨?_, ?_, ?_⟩ <;> simp [bothRow, h1, h2]
    · have hbk : rkey b = k := hkey
      have h1 : hasKey book k = true := (hasKey_eq_true_iff book k).2 ⟨b, hb, hbk⟩
      have h2 : hasKey ret k = false := (hasKey_eq_false_iff ret k).2 fun t ht => by
        rw [← hbk]
        exact hempty t ht
      refine ⟨?_, ?_, ?_⟩ <;> simp [leftRow, h1, h2]
    · have hrk : rkey r = k := hkey
      have h2 : hasKey ret k = true := (hasKey_eq_true_iff ret k).2 ⟨r, hr, hrk⟩
      have h1 : hasKey book k = false := (hasKey_eq_false_iff book k).2 fun t ht => by
        rw [← hrk]
        exact hnb t ht
      refine ⟨?_, ?_, ?_⟩ <;> simp [rightRow, h1, h2]

/-- C1, witness: the amended theorem applied to the one-sided scenario. -/
theorem C1_witness :
    (∃ row ∈ reconcile_data [tA] [], rowKey row = rkey tA) ∧
    ((leftRow tA).merge = MergeLabel.NotInGSTR2A ↔
      hasKey [tA] (rkey tA) = true ∧ hasKey ([] : List Txn) (rkey tA) = false) :=
  ⟨(C1_amended [tA] [] (rkey tA)).1 (by decide),
   ((C1_amended [tA] [] (rkey tA)).2 (leftRow tA) (by decide) (by decide)).2.1⟩

/-- C5, confirmed.  Every Matched output row arises from a purchase row and a
GSTR2A row with equal identity keys, and each descriptive field is the
purchase value when that value is present, else the GSTR2A value. -/
theorem C5_resolution (book ret : List Txn) (row : RRow)
    (hmem : row ∈ reconcile_data book ret) (hm : row.merge = MergeLabel.Matched) :
    ∃ b ∈ book, ∃ r ∈ ret, rkey b = rkey r ∧ rowKey row = rkey b ∧
      row.Party_Name = (if b.Party_Name = Cell.null then r.Party_Name else b.Party_Name) ∧
      row.GSTIN = (if b.GSTIN = Cell.null then r.GSTIN else b.GSTIN) ∧
      row.Invoice_Date =
        (if b.Invoice_Date = Cell.null then r.Invoice_Date else b.Invoice_Date) := by
  rcases (mem_reconcile_iff book ret row).1 hmem with
    ⟨b, hb, r, hr, hk, rfl⟩ | ⟨b, hb, hempty, rfl⟩ | ⟨r, hr, hnb, rfl⟩
  · exact ⟨b, hb, r, hr, hk.symm, rfl, rfl, rfl, rfl⟩
  · simp [leftRow] at hm
  · simp [rightRow] at hm

/-- C5, witness: the resolution theorem applied to the end-to-end scenario
(the book GSTIN is missing there, so the GSTIN resolves to the GSTR2A
side while the party name keeps the book value). -/
theorem C5_witness :
    ∃ b ∈ [tA], ∃ r ∈ [tR], rkey b = rkey r ∧ rowKey (bothRow tA tR) = rkey b ∧
      (bothRow tA tR).Party_Name =
        (if b.Party_Name = Cell.null then r.Party_Name else b.Party_Name) ∧
      (bothRow tA tR).GSTIN = (if b.GSTIN = Cell.null then r.GSTIN else b.GSTIN) ∧
      (bothRow tA tR).Invoice_Date =
        (if b.Invoice_Date = Cell.null then r.Invoice_Date else b.Invoice_Date) :=
  C5_resolution [tA] [tR] (bothRow tA tR) (by decide) (by decide)

/-! Lemmas about the grouped sums of the aggregator. -/

theorem mem_parties (rows : List Txn) (p : Cell) :
    p ∈ parties rows ↔ (∃ t ∈ rows, t.Party_Name = p) ∧ p ≠ Cell.null := by
  simp [parties, mem_dropDuplicates, List.mem_filter, List.mem_map]

theorem parties_nodup (rows : List Txn) : (parties rows).Nodup :=
  nodup_dropDuplicates _

theorem parties_ne_null (rows : List Txn) (p : Cell) (h : p ∈ parties rows) :
    p ≠ Cell.null :=
  ((mem_parties rows p).1 h).2

theorem groupSumF_cons (amt : Txn → Cell) (p : Cell) (t : Txn) (rows : List Txn) :
    groupSumF amt p (t :: rows)
      = (if t.Party_Name = p then cellInt (amt t) else 0) + groupSumF amt p rows := by
  unfold groupSumF
  rw [List.filter_cons]
  by_cases h : t.Party_Name = p
  · simp [h]
  · simp [h]

theorem groupSumF_eq_zero (amt : Txn → Cell) (p : Cell) (rows : List Txn)
    (h : ∀ t ∈ rows, t.Party_Name ≠ p) : groupSumF amt p rows = 0 := by
  unfold groupSumF
  rw [List.filter_eq_nil_iff.2 fun t ht => by simpa using h t ht]
  rfl

theorem sum_map_zero (keys : List Cell) : (keys.map fun _ => (0 : Int)).sum = 0 := by
  induction keys with
  | nil => rfl
  | cons a k ih => simp [ih]

theorem sum_map_ite_zero (keys : List Cell) (q : Cell) (x : Int) (hq : q ∉ keys) :
    (keys.map fun p => if q = p then x else 0).sum = 0 := by
  induction keys with
  | nil => rfl
  | cons a k ih =>
    have hqa : ¬ (q = a) := fun h => hq (h ▸ List.mem_cons_self _ _)
    have hqk : q ∉ k := fun h => hq (List.mem_cons_of_mem _ h)
    simp [hqa, ih hqk]

theorem sum_map_ite (keys : List Cell) (hnd : keys.Nodup) (q : Cell) (x : Int)
    (hq : q ∈ keys) : (keys.map fun p => if q = p then x else 0).sum = x := by
  induction keys with
  | nil => exact absurd hq (List.not_mem_nil q)
  | cons a k ih =>
    rcases List.mem_cons.1 hq with rfl | hq'
    · have hqk : q ∉ k := (List.nodup_cons.1 hnd).1
      simp [sum_map_ite_zero k q x hqk]
    · have hqa : ¬ (q = a) := by
        rintro rfl
        exact (List.nodup_cons.1 hnd).1 hq'
      simp only [List.map_cons, List.sum_cons, if_neg hqa]
      rw [ih (List.nodup_cons.1 hnd).2 hq']
      ring

/-- Partition of a column sum over the group keys: summing the per-party
group sums over a duplicate-free key list covering all non-missing party
names gives the plain column sum over the records with a party name. -/
theorem sum_groupSumF (amt : Txn → Cell) (keys : List Cell) :
    ∀ (rows : List Txn), keys.Nodup →
      (∀ t ∈ rows, t.Party_Name ≠ Cell.null → t.Party_Name ∈ keys) →
      (∀ p ∈ keys, p ≠ Cell.null) →
      (keys.map fun p => groupSumF amt p rows).sum
        = ((rows.filter fun t => decide (t.Party_Name ≠ Cell.null)).map
            fun t => cellInt (amt t)).sum
  | [], _, _, _ => by
      have hz : (keys.map fun p => groupSumF amt p []).sum
          = (keys.map fun _ => (0 : Int)).sum :=
        congrArg List.sum (List.map_congr_left fun p _ => rfl)
      rw [hz, sum_map_zero]
      rfl
  | t :: rows, hnd, hmem, hnn => by
      have hrec := sum_groupSumF amt keys rows hnd
        (fun u hu => hmem u (List.mem_cons_of_mem _ hu)) hnn
      have hsplit : (keys.map fun p => groupSumF amt p (t :: rows)).sum
          = (keys.map fun p => if t.Party_Name = p then cellInt (amt t) else 0).sum
            + (keys.map fun p => groupSumF amt p rows).sum := by
        rw [← List.sum_map_add]
        exact congrArg List.sum (List.map_congr_left fun p _ => groupSumF_cons amt p t rows)
      by_cases hnull : t.Party_Name = Cell.null
      · have hnot : t.Party_Name ∉ keys := fun h => hnn _ h hnull
        rw [hsplit, sum_map_ite_zero keys t.Party_Name _ hnot, hrec, List.filter_cons,
          if_neg (by simp [hnull])]
        ring
      · have hin : t.Party_Name ∈ keys := hmem t (List.mem_cons_self _ _) hnull
        rw [hsplit, sum_map_ite keys hnd t.Party_Name _ hin, hrec, List.filter_cons,
          if_pos (by simp [hnull]), List.map_cons, List.sum_cons]

/-! Lemmas about the canonicalization step of line 36. -/

theorem cellScore_null_right (scorer : String → String → Nat) (q : Cell) :
    cellScore scorer q Cell.null = 0 := by
  cases q <;> rfl

theorem cellScore_null_left (scorer : String → String → Nat) (c : Cell) :
    cellScore scorer Cell.null c = 0 := by
  cases c <;> rfl

/-- Canonicalization sends a missing name to itself (a missing query scores 0
against every choice, below the cutoff 75) and a present name to a
present name (the name itself, or a winning choice that scored above
75 > 0 and hence is a genuine string). -/
theorem canon_null_iff (scorer : String → String → Nat) (choices : List Cell) (c : Cell) :
    get_best_match (cellScore scorer) c choices 75 = Cell.null ↔ c = Cell.null := by
  constructor
  · intro h
    by_contra hc
    rcases he : extractOne (cellScore scorer) c choices with _ | ⟨m, s⟩
    · rw [get_best_match_of_none _ _ _ _ he] at h
      exact hc h
    · rw [get_best_match_of_some _ _ _ 75 he] at h
      by_cases hcut : s > 75
      · rw [if_pos hcut] at h
        obtain ⟨hm, hs, _⟩ := extractOne_max _ _ he
        rw [h, cellScore_null_right] at hs
        omega
      · rw [if_neg hcut] at h
        exact hc h
  · rintro rfl
    rcases he : extractOne (cellScore scorer) Cell.null choices with _ | ⟨m, s⟩
    · exact get_best_match_of_none _ _ _ _ he
    · obtain ⟨hm, hs, _⟩ := extractOne_max _ _ he
      rw [cellScore_null_left] at hs
      rw [get_best_match_of_some _ _ _ 75 he, if_neg (by omega)]

/-- The post-call purchase collection (line 36): each record with its party
name canonicalized against the GSTR2A name list. -/
theorem cps_snd (scorer : String → String → Nat) (book ret : List Txn) :
    (create_pivot_summary scorer book ret).2
      = book.map fun t =>
          { t with Party_Name := get_best_match (cellScore scorer) t.Party_Name (ret.map fun u => u.Party_Name) 75 } := rfl

/-- The comparison frame (lines 37-41): the outer merge of the grouped sums
of the canonicalized purchase records and of the GSTR2A records. -/
theorem cps_fst (scorer : String → String → Nat) (book ret : List Txn) :
    (create_pivot_summary scorer book ret).1
      = outerMergeAgg (groupbySum ((create_pivot_summary scorer book ret).2))
          (groupbySum ret) := rfl

theorem sum_map_map {α β : Type} (l : List α) (f : α → β) (g : β → Int) :
    ((l.map f).map g).sum = (l.map fun x => g (f x)).sum := by
  rw [List.map_map]
  rfl

/-- The books-side column sum of the comparison frame: summing one side of
the outer merge recovers the grouped column sum of that side's input. -/
theorem sum_books_generic (amt : Txn → Cell) (sel : GRow → Int) (asel : AggRow → Option Int)
    (hsel : ∀ (p : Cell) (rows : List Txn),
      sel ⟨p, groupSumF (fun t => t.Taxable_Amount) p rows,
        groupSumF (fun t => t.CGST) p rows, groupSumF (fun t => t.SGST) p rows,
        groupSumF (fun t => t.IGST) p rows⟩ = groupSumF amt p rows)
    (hb : ∀ (p : Cell) (g : GRow) (gg : Option GRow),
      asel (mkAggRow p (some g) gg) = some (sel g))
    (hn : ∀ (p : Cell) (h : GRow), asel (mkAggRow p none (some h)) = none)
    (rows rows₂ : List Txn) :
    ((outerMergeAgg (groupbySum rows) (groupbySum rows₂)).map
        fun row => (asel row).getD 0).sum
      = ((rows.filter fun t => decide (t.Party_Name ≠ Cell.null)).map
          fun t => cellInt (amt t)).sum := by
  rw [outerMergeAgg, List.map_append, List.sum_append]
  have hB : ((((groupbySum rows₂).filter fun h =>
      decide (¬ (groupbySum rows).any fun g =>
        decide (g.Party_Name = h.Party_Name))).map
        fun h => mkAggRow h.Party_Name none (some h)).map
        fun row => (asel row).getD 0).sum = 0 := by
    apply List.sum_eq_zero
    intro x hx
    rcases List.mem_map.1 hx with ⟨row, hrow, rfl⟩
    rcases List.mem_map.1 hrow with ⟨g, hg, rfl⟩
    rw [hn]
    rfl
  rw [hB, add_zero, sum_map_map]
  have h1 : (groupbySum rows).map
      (fun g => (asel (mkAggRow g.Party_Name (some g)
        ((groupbySum rows₂).find? fun h => decide (h.Party_Name = g.Party_Name)))).getD 0)
      = (groupbySum rows).map sel :=
    List.map_congr_left fun g _ => by rw [hb]; rfl
  rw [h1, groupbySum, sum_map_map]
  have h2 : (parties rows).map
      (fun p => sel ⟨p, groupSumF (fun t => t.Taxable_Amount) p rows,
        groupSumF (fun t => t.CGST) p rows, groupSumF (fun t => t.SGST) p rows,
        groupSumF (fun t => t.IGST) p rows⟩)
      = (parties rows).map fun p => groupSumF amt p rows :=
    List.map_congr_left fun p _ => hsel p rows
  rw [h2]
  exact sum_groupSumF amt (parties rows) rows (parties_nodup rows)
    (fun t ht hnn => (mem_parties rows _).2 ⟨⟨t, ht, rfl⟩, hnn⟩)
    (fun p hp => parties_ne_null rows p hp)

/-- The canonicalized purchase records carry the same tax cells, and a party
name that is present stays present, so a column sum over the
canonicalized records with a party name equals the same sum over the
original records with a party name. -/
theorem canon_filter_sum (scorer : String → String → Nat) (book ret : List Txn)
    (amt : Txn → Cell) (hamt : ∀ (t : Txn) (p : Cell), amt { t with Party_Name := p } = amt t) :
    ((((create_pivot_summary scorer book ret).2).filter
        fun t => decide (t.Party_Name ≠ Cell.null)).map fun t => cellInt (amt t)).sum
      = ((book.filter fun t => decide (t.Party_Name ≠ Cell.null)).map
          fun t => cellInt (amt t)).sum := by
  rw [cps_snd, List.filter_map]
  have hpred : book.filter ((fun t : Txn => decide (t.Party_Name ≠ Cell.null)) ∘ fun t : Txn =>
      { t with Party_Name := get_best_match (cellScore scorer) t.Party_Name (ret.map fun u => u.Party_Name) 75 })
      = book.filter fun t => decide (t.Party_Name ≠ Cell.null) := by
    refine List.filter_congr fun t _ => ?_
    simp only [Function.comp]
    refine decide_eq_decide.2 ?_
    exact not_congr (canon_null_iff scorer (ret.map fun u => u.Party_Name) t.Party_Name)
  rw [hpred, sum_map_map]
  exact congrArg List.sum (List.map_congr_left fun t _ => by rw [hamt])

/-- C7, counterexample.  The claim says the books-side sums of the comparison
frame always total the `Taxable_Amount` sum over all purchase records.
With an empty GSTR2A side the aggregator completes (the empty choice list
is returned before any preprocessing, so the missing name is never
processed), and the group-by then drops the null-party purchase record:
its amount reaches no comparison row, 0 against the record's 100. -/
theorem C7_counterexample :
    create_pivot_summary_run scorer0 [tN] []
      = Except.ok (create_pivot_summary scorer0 [tN] []) ∧
    (((create_pivot_summary scorer0 [tN] []).1).map
        fun row => row.Taxable_Amount_books.getD 0).sum = 0 ∧
    ([tN].map fun t => cellInt t.Taxable_Amount).sum = 100 ∧
    (((create_pivot_summary scorer0 [tN] []).1).map
        fun row => row.Taxable_Amount_books.getD 0).sum
      ≠ ([tN].map fun t => cellInt t.Taxable_Amount).sum :=
  ⟨rfl, by decide, by decide, by decide⟩

/-- On the aggregator's completing domain: for each of the four tax columns,
the books-side sums over all comparison rows total the column sum over the
purchase records whose party name is present (canonicalization regroups
but preserves totals; null-party records are dropped by the group-by). -/
theorem cps_books_sum (scorer : String → String → Nat) (book ret : List Txn) :
    (((create_pivot_summary scorer book ret).1).map
        fun row => row.Taxable_Amount_books.getD 0).sum
      = ((book.filter fun t => decide (t.Party_Name ≠ Cell.null)).map
          fun t => cellInt t.Taxable_Amount).sum ∧
    (((create_pivot_summary scorer book ret).1).map fun row => row.CGST_books.getD 0).sum
      = ((book.filter fun t => decide (t.Party_Name ≠ Cell.null)).map
          fun t => cellInt t.CGST).sum ∧
    (((create_pivot_summary scorer book ret).1).map fun row => row.SGST_books.getD 0).sum
      = ((book.filter fun t => decide (t.Party_Name ≠ Cell.null)).map
          fun t => cellInt t.SGST).sum ∧
    (((create_pivot_summary scorer book ret).1).map fun row => row.IGST_books.getD 0).sum
      = ((book.filter fun t => decide (t.Party_Name ≠ Cell.null)).map
          fun t => cellInt t.IGST).sum := by
  refine ⟨?_, ?_, ?_, ?_⟩
  · exact (sum_books_generic (fun t => t.Taxable_Amount) (fun g => g.Taxable_Amount)
      (fun r => r.Taxable_Amount_books) (fun p rows => rfl) (fun p g gg => rfl)
      (fun p h => rfl) ((create_pivot_summary scorer book ret).2) ret).trans
      (canon_filter_sum scorer book ret (fun t => t.Taxable_Amount) (fun t p => rfl))
  · exact (sum_books_generic (fun t => t.CGST) (fun g => g.CGST)
      (fun r => r.CGST_books) (fun p rows => rfl) (fun p g gg => rfl)
      (fun p h => rfl) ((create_pivot_summary scorer book ret).2) ret).trans
      (canon_filter_sum scorer book ret (fun t => t.CGST) (fun t p => rfl))
  · exact (sum_books_generic (fun t => t.SGST) (fun g => g.SGST)
      (fun r => r.SGST_books) (fun p rows => rfl) (fun p g gg => rfl)
      (fun p h => rfl) ((create_pivot_summary scorer book ret).2) ret).trans
      (canon_filter_sum scorer book ret (fun t => t.SGST) (fun t p => rfl))
  · exact (sum_books_generic (fun t => t.IGST) (fun g => g.IGST)
      (fun r => r.IGST_books) (fun p rows => rfl) (fun p g gg => rfl)
      (fun p h => rfl) ((create_pivot_summary scorer book ret).2) ret).trans
      (canon_filter_sum scorer book ret (fun t => t.IGST) (fun t p => rfl))

/-- C7, amended.  Whenever the aggregator completes — it raises TypeError
instead when both inputs are non-empty and some party name of either
input is missing — the books-side sums of the comparison frame total, for
each of the four tax columns, the column sum over the purchase records
whose party name is present: canonicalization regroups but preserves
totals, and the null-party records that reach the group-by are dropped. -/
theorem C7_amended (scorer : String → String → Nat) (book ret : List Txn) :
    ∀ out, create_pivot_summary_run scorer book ret = Except.ok out →
      ((out.1.map fun row => row.Taxable_Amount_books.getD 0).sum
        = ((book.filter fun t => decide (t.Party_Name ≠ Cell.null)).map
            fun t => cellInt t.Taxable_Amount).sum ∧
       (out.1.map fun row => row.CGST_books.getD 0).sum
        = ((book.filter fun t => decide (t.Party_Name ≠ Cell.null)).map
            fun t => cellInt t.CGST).sum ∧
       (out.1.map fun row => row.SGST_books.getD 0).sum
        = ((book.filter fun t => decide (t.Party_Name ≠ Cell.null)).map
            fun t => cellInt t.SGST).sum ∧
       (out.1.map fun row => row.IGST_books.getD 0).sum
        = ((book.filter fun t => decide (t.Party_Name ≠ Cell.null)).map
            fun t => cellInt t.IGST).sum) := by
  intro out hout
  unfold create_pivot_summary_run at hout
  by_cases hg : (book.isEmpty || ret.isEmpty ||
      ((book.all fun t => isStrCell t.Party_Name) &&
        (ret.all fun t => isStrCell t.Party_Name))) = true
  · rw [if_pos hg] at hout
    have hout2 : out = create_pivot_summary scorer book ret := (Except.ok.inj hout).symm
    subst hout2
    exact cps_books_sum scorer book ret
  · rw [if_neg hg] at hout
    simp at hout

/-- C7, witness: the amended theorem applied to the completing run on a
null-party purchase record against an empty GSTR2A side. -/
theorem C7_witness :
    ((create_pivot_summary scorer0 [tN] []).1.map
        fun row => row.Taxable_Amount_books.getD 0).sum
      = (([tN].filter fun t => decide (t.Party_Name ≠ Cell.null)).map
          fun t => cellInt t.Taxable_Amount).sum ∧
    ((create_pivot_summary scorer0 [tN] []).1.map fun row => row.CGST_books.getD 0).sum
      = (([tN].filter fun t => decide (t.Party_Name ≠ Cell.null)).map
          fun t => cellInt t.CGST).sum ∧
    ((create_pivot_summary scorer0 [tN] []).1.map fun row => row.SGST_books.getD 0).sum
      = (([tN].filter fun t => decide (t.Party_Name ≠ Cell.null)).map
          fun t => cellInt t.SGST).sum ∧
    ((create_pivot_summary scorer0 [tN] []).1.map fun row => row.IGST_books.getD 0).sum
      = (([tN].filter fun t => decide (t.Party_Name ≠ Cell.null)).map
          fun t => cellInt t.IGST).sum :=
  C7_amended scorer0 [tN] [] (create_pivot_summary scorer0 [tN] []) rfl

/-- C3, counterexample.  The claim says the Aggregator leaves the purchase
collection's party names unchanged; in fact line 36 overwrites the
`Party_Name` column of its argument in place, so the purchase collection
after the call differs from the input. -/
theorem C3_counterexample :
    (create_pivot_summary scorer100 [tA] [tR]).2 ≠ [tA] ∧
    (create_pivot_summary scorer100 [tA] [tR]).2
      = [{ tA with Party_Name := Cell.str "ACME CORPORATION" }] := by
  decide

/-- C3, amended.  `get_best_match` and `reconcile_data` are pure (they touch
no input state), but the Aggregator mutates its purchase argument: after
the call, each purchase record carries its canonicalized party name while
every other column is unchanged, and the GSTR2A collection is untouched. -/
theorem C3_amended (scorer : String → String → Nat) (book ret : List Txn) :
    (create_pivot_summary scorer book ret).2
      = (book.map fun t =>
          { t with Party_Name := get_best_match (cellScore scorer) t.Party_Name (ret.map fun u => u.Party_Name) 75 }) ∧
    ((create_pivot_summary scorer book ret).2).map
        (fun t => (t.Invoice_Number, t.Tax_Rate, t.Taxable_Amount,
          t.CGST, t.SGST, t.IGST, t.GSTIN, t.Invoice_Date))
      = book.map fun t => (t.Invoice_Number, t.Tax_Rate, t.Taxable_Amount,
          t.CGST, t.SGST, t.IGST, t.GSTIN, t.Invoice_Date) := by
  refine ⟨cps_snd scorer book ret, ?_⟩
  rw [cps_snd, List.map_map]
  exact List.map_congr_left fun t _ => rfl

/-- C9, confirmed.  The reference list is the GSTR2A party-name column; its
duplicates are immaterial, so the aggregator coincides with the variant
built from the distinct party names (first occurrences).  Only the
purchase side is canonicalized, the GSTR2A side feeds the group-by raw,
and the reconciliation of `app()` runs on the raw records (line 95,
before the aggregator's in-place canonicalization on line 96). -/
theorem C9_one_directional (scorer : String → String → Nat) (book ret : List Txn) :
    create_pivot_summary scorer book ret = create_pivot_summary_distinct scorer book ret ∧
    (app_core scorer book ret).1 = reconcile_data book ret := by
  refine ⟨?_, rfl⟩
  have hmap : (book.map fun t =>
      ({ t with Party_Name := get_best_match (cellScore scorer) t.Party_Name (ret.map fun u => u.Party_Name) 75 } : Txn))
      = book.map fun t =>
      ({ t with Party_Name := get_best_match (cellScore scorer) t.Party_Name (dropDuplicates (ret.map fun u => u.Party_Name)) 75 } : Txn) :=
    List.map_congr_left fun t _ => by rw [get_best_match_dropDuplicates]
  show (outerMergeAgg
      (groupbySum (book.map fun t =>
        { t with Party_Name := get_best_match (cellScore scorer) t.Party_Name (ret.map fun u => u.Party_Name) 75 }))
      (groupbySum ret),
    book.map fun t =>
      { t with Party_Name := get_best_match (cellScore scorer) t.Party_Name (ret.map fun u => u.Party_Name) 75 })
    = create_pivot_summary_distinct scorer book ret
  rw [hmap]
  rfl

/-- The grouped row of one party. -/
def mkGRow (rows : List Txn) (p : Cell) : GRow :=
  ⟨p, groupSumF (fun t => t.Taxable_Amount) p rows, groupSumF (fun t => t.CGST) p rows,
   groupSumF (fun t => t.SGST) p rows, groupSumF (fun t => t.IGST) p rows⟩

theorem groupbySum_eq_map (rows : List Txn) :
    groupbySum rows = (parties rows).map (mkGRow rows) := rfl

theorem mem_groupbySum (rows : List Txn) (g : GRow) :
    g ∈ groupbySum rows ↔ ∃ p ∈ parties rows, g = mkGRow rows p := by
  rw [groupbySum_eq_map]
  constructor
  · intro h
    rcases List.mem_map.1 h with ⟨p, hp, rfl⟩
    exact ⟨p, hp, rfl⟩
  · rintro ⟨p, hp, rfl⟩
    exact List.mem_map.2 ⟨p, hp, rfl⟩

theorem groupSumF_eq_zero_of_not_parties (amt : Txn → Cell) (p : Cell) (rows : List Txn)
    (hp : p ≠ Cell.null) (h : p ∉ parties rows) : groupSumF amt p rows = 0 := by
  refine groupSumF_eq_zero amt p rows fun t ht heq => ?_
  exact h ((mem_parties rows p).2 ⟨⟨t, ht, heq⟩, hp⟩)

theorem countP_eq_zero_of_not_mem {α : Type} [DecidableEq α] (l : List α) (a : α)
    (ha : a ∉ l) : (l.countP fun x => decide (x = a)) = 0 :=
  List.countP_eq_zero.2 fun _x hx hdx => ha ((of_decide_eq_true hdx) ▸ hx)

theorem countP_eq_one_of_nodup {α : Type} [DecidableEq α] (l : List α) (hnd : l.Nodup)
    (a : α) (ha : a ∈ l) : (l.countP fun x => decide (x = a)) = 1 := by
  induction l with
  | nil => cases ha
  | cons b l ih =>
    rw [List.countP_cons]
    rcases List.mem_cons.1 ha with rfl | ha'
    · have hz : (l.countP fun x => decide (x = a)) = 0 :=
        countP_eq_zero_of_not_mem l a (List.nodup_cons.1 hnd).1
      simp [hz]
    · have hb : ¬ (b = a) := by
        rintro rfl
        exact (List.nodup_cons.1 hnd).1 ha'
      rw [ih (List.nodup_cons.1 hnd).2 ha']
      simp [hb]

theorem groupbySum_map_party (rows : List Txn) :
    (groupbySum rows).map (fun g => g.Party_Name) = parties rows := by
  rw [groupbySum_eq_map, List.map_map]
  calc (parties rows).map ((fun g : GRow => g.Party_Name) ∘ mkGRow rows)
      = (parties rows).map id := List.map_congr_left fun p _ => rfl
    _ = parties rows := List.map_id _

/-- Every comparison row carries a present party name, and its four diffs are
the per-party column sums of the two sides, an absent side contributing
zero. -/
theorem outerMergeAgg_diff (bk rt : List Txn) :
    ∀ row ∈ outerMergeAgg (groupbySum bk) (groupbySum rt),
      row.Party_Name ≠ Cell.null ∧
      row.Taxable_Amount_diff
        = groupSumF (fun t => t.Taxable_Amount) row.Party_Name bk
          - groupSumF (fun t => t.Taxable_Amount) row.Party_Name rt ∧
      row.CGST_diff
        = groupSumF (fun t => t.CGST) row.Party_Name bk
          - groupSumF (fun t => t.CGST) row.Party_Name rt ∧
      row.SGST_diff
        = groupSumF (fun t => t.SGST) row.Party_Name bk
          - groupSumF (fun t => t.SGST) row.Party_Name rt ∧
      row.IGST_diff
        = groupSumF (fun t => t.IGST) row.Party_Name bk
          - groupSumF (fun t => t.IGST) row.Party_Name rt := by
  intro row hrow
  rw [outerMergeAgg] at hrow
  rcases List.mem_append.1 hrow with h | h
  · rcases List.mem_map.1 h with ⟨g, hg, rfl⟩
    rcases (mem_groupbySum bk g).1 hg with ⟨p, hp, rfl⟩
    have hpnull : p ≠ Cell.null := parties_ne_null bk p hp
    rcases hfind : (groupbySum rt).find?
        (fun h => decide (h.Party_Name = (mkGRow bk p).Party_Name)) with _ | h₀
    · have hnone := List.find?_eq_none.1 hfind
      have hnp : p ∉ parties rt := by
        intro hmem
        exact absurd (decide_eq_true rfl)
          (hnone (mkGRow rt p) ((mem_groupbySum rt _).2 ⟨p, hmem, rfl⟩))
      have hz : ∀ amt : Txn → Cell, groupSumF amt p rt = 0 := fun amt =>
        groupSumF_eq_zero_of_not_parties amt p rt hpnull hnp
      rw [hfind]
      refine ⟨hpnull, ?_, ?_, ?_, ?_⟩ <;> simp [mkAggRow, mkGRow, hz]
    · have hfs := List.find?_some hfind
      have hmem := List.mem_of_find?_eq_some hfind
      rcases (mem_groupbySum rt h₀).1 hmem with ⟨q, hq, rfl⟩
      have hqp : q = p := of_decide_eq_true hfs
      subst hqp
      rw [hfind]
      refine ⟨hpnull, ?_, ?_, ?_, ?_⟩ <;> simp [mkAggRow, mkGRow]
  · rcases List.mem_map.1 h with ⟨h₀, hh₀, rfl⟩
    rcases List.mem_filter.1 hh₀ with ⟨hga, hcond⟩
    rcases (mem_groupbySum rt h₀).1 hga with ⟨q, hq, rfl⟩
    have hqnull : q ≠ Cell.null := parties_ne_null rt q hq
    have hnb : q ∉ parties bk := by
      intro hmem
      refine (of_decide_eq_true hcond) (List.any_eq_true.2
        ⟨mkGRow bk q, (mem_groupbySum bk _).2 ⟨q, hmem, rfl⟩, decide_eq_true rfl⟩)
    have hz : ∀ amt : Txn → Cell, groupSumF amt q bk = 0 := fun amt =>
      groupSumF_eq_zero_of_not_parties amt q bk hqnull hnb
    refine ⟨hqnull, ?_, ?_, ?_, ?_⟩ <;> simp [mkAggRow, mkGRow, hz]

/-- Every party name present on either side of the outer merge heads exactly
one comparison row. -/
theorem outerMergeAgg_unique (bk rt : List Txn) (s : String)
    (hs : Cell.str s ∈ parties bk ∨ Cell.str s ∈ parties rt) :
    ((outerMergeAgg (groupbySum bk) (groupbySum rt)).countP
      fun row => decide (row.Party_Name = Cell.str s)) = 1 := by
  rw [outerMergeAgg, List.countP_append]
  have hA : (((groupbySum bk).map fun g => mkAggRow g.Party_Name (some g)
      ((groupbySum rt).find? fun h => decide (h.Party_Name = g.Party_Name))).countP
      fun row => decide (row.Party_Name = Cell.str s))
      = ((parties bk).countP fun p => decide (p = Cell.str s)) := by
    rw [List.countP_map, groupbySum_eq_map bk, List.countP_map]
    rfl
  have hB : ((((groupbySum rt).filter fun h => decide (¬ (groupbySum bk).any
      fun g => decide (g.Party_Name = h.Party_Name))).map
      fun h => mkAggRow h.Party_Name none (some h)).countP
      fun row => decide (row.Party_Name = Cell.str s))
      = (((groupbySum rt).filter fun h => decide (¬ (groupbySum bk).any
          fun g => decide (g.Party_Name = h.Party_Name))).countP
          fun h => decide (h.Party_Name = Cell.str s)) := by
    rw [List.countP_map]
    rfl
  rw [hA, hB]
  by_cases hbk : Cell.str s ∈ parties bk
  · rw [countP_eq_one_of_nodup (parties bk) (parties_nodup bk) _ hbk]
    have hzero : (((groupbySum rt).filter fun h => decide (¬ (groupbySum bk).any
        fun g => decide (g.Party_Name = h.Party_Name))).countP
        fun h => decide (h.Party_Name = Cell.str s)) = 0 := by
      refine List.countP_eq_zero.2 fun h hh hdx => ?_
      rcases List.mem_filter.1 hh with ⟨hga, hcond⟩
      have hps : h.Party_Name = Cell.str s := of_decide_eq_true hdx
      refine (of_decide_eq_true hcond) (List.any_eq_true.2 ⟨mkGRow bk (Cell.str s),
        (mem_groupbySum bk _).2 ⟨Cell.str s, hbk, rfl⟩, ?_⟩)
      rw [hps]
      exact decide_eq_true rfl
    rw [hzero]
  · have hrt : Cell.str s ∈ parties rt := by
      rcases hs with h | h
      · exact absurd h hbk
      · exact h
    rw [countP_eq_zero_of_not_mem (parties bk) _ hbk]
    have hcnt : (((groupbySum rt).filter fun h => decide (¬ (groupbySum bk).any
        fun g => decide (g.Party_Name = h.Party_Name))).countP
        fun h => decide (h.Party_Name = Cell.str s))
        = ((((groupbySum rt).filter fun h => decide (¬ (groupbySum bk).any
            fun g => decide (g.Party_Name = h.Party_Name))).map
            fun h => h.Party_Name).countP fun p => decide (p = Cell.str s)) := by
      rw [List.countP_map]
      rfl
    have hnodup : ((((groupbySum rt).filter fun h => decide (¬ (groupbySum bk).any
        fun g => decide (g.Party_Name = h.Party_Name))).map
        fun h => h.Party_Name)).Nodup := by
      have hsub : List.Sublist (((groupbySum rt).filter fun h =>
          decide (¬ (groupbySum bk).any fun g => decide (g.Party_Name = h.Party_Name))).map
          fun h => h.Party_Name) ((groupbySum rt).map fun h => h.Party_Name) :=
        (List.filter_sublist _).map _
      have hnd : ((groupbySum rt).map fun h => h.Party_Name).Nodup :=
        (groupbySum_map_party rt).symm ▸ parties_nodup rt
      exact hnd.sublist hsub
    have hmem : Cell.str s ∈ (((groupbySum rt).filter fun h =>
        decide (¬ (groupbySum bk).any fun g => decide (g.Party_Name = h.Party_Name))).map
        fun h => h.Party_Name) := by
      refine List.mem_map.2 ⟨mkGRow rt (Cell.str s), ?_, rfl⟩
      refine List.mem_filter.2 ⟨(mem_groupbySum rt _).2 ⟨Cell.str s, hrt, rfl⟩, ?_⟩
      refine decide_eq_true ?_
      intro hany
      rcases List.any_eq_true.1 hany with ⟨g, hg, hgd⟩
      rcases (mem_groupbySum bk g).1 hg with ⟨q, hq, rfl⟩
      have hqs : q = Cell.str s := of_decide_eq_true hgd
      exact hbk (hqs ▸ hq)
    rw [hcnt, countP_eq_one_of_nodup _ hnodup _ hmem]

/-- C6, confirmed.  In every comparison row each of the four diffs is the
books-side per-party column sum (over the canonicalized purchase records)
minus the GSTR2A-side per-party column sum, a side without transactions
for that party contributing zero; and every party name appearing on
either side after canonicalization heads exactly one comparison row. -/
theorem C6_diff_and_unique (scorer : String → String → Nat) (book ret : List Txn) :
    (∀ row ∈ (create_pivot_summary scorer book ret).1,
      row.Taxable_Amount_diff
        = groupSumF (fun t => t.Taxable_Amount) row.Party_Name
            ((create_pivot_summary scorer book ret).2)
          - groupSumF (fun t => t.Taxable_Amount) row.Party_Name ret ∧
      row.CGST_diff
        = groupSumF (fun t => t.CGST) row.Party_Name ((create_pivot_summary scorer book ret).2)
          - groupSumF (fun t => t.CGST) row.Party_Name ret ∧
      row.SGST_diff
        = groupSumF (fun t => t.SGST) row.Party_Name ((create_pivot_summary scorer book ret).2)
          - groupSumF (fun t => t.SGST) row.Party_Name ret ∧
      row.IGST_diff
        = groupSumF (fun t => t.IGST) row.Party_Name ((create_pivot_summary scorer book ret).2)
          - groupSumF (fun t => t.IGST) row.Party_Name ret) ∧
    (∀ s : String,
      ((∃ t ∈ (create_pivot_summary scorer book ret).2, t.Party_Name = Cell.str s) ∨
        ∃ t ∈ ret, t.Party_Name = Cell.str s) →
      ((create_pivot_summary scorer book ret).1.countP
        fun row => decide (row.Party_Name = Cell.str s)) = 1) := by
  constructor
  · intro row hrow
    exact (outerMergeAgg_diff ((create_pivot_summary scorer book ret).2) ret row hrow).2
  · intro s hs
    have hs' : Cell.str s ∈ parties ((create_pivot_summary scorer book ret).2) ∨
        Cell.str s ∈ parties ret := by
      rcases hs with ⟨t, ht, hts⟩ | ⟨t, ht, hts⟩
      · exact Or.inl ((mem_parties _ _).2 ⟨⟨t, ht, hts⟩, by simp⟩)
      · exact Or.inr ((mem_parties _ _).2 ⟨⟨t, ht, hts⟩, by simp⟩)
    exact outerMergeAgg_unique ((create_pivot_summary scorer book ret).2) ret s hs'

/-- C6, witness: the claim theorem applied to the end-to-end scenario, whose
single comparison row is for the GSTR2A name. -/
theorem C6_witness :
    ((create_pivot_summary scorer100 [tA] [tR]).1.countP
      fun row => decide (row.Party_Name = Cell.str "ACME CORPORATION")) = 1 ∧
    (mkAggRow (Cell.str "ACME CORPORATION")
        (some ⟨Cell.str "ACME CORPORATION", 1000, 90, 90, 0⟩)
        (some ⟨Cell.str "ACME CORPORATION", 1000, 90, 90, 0⟩)).Taxable_Amount_diff
      = groupSumF (fun t => t.Taxable_Amount) (Cell.str "ACME CORPORATION")
          ((create_pivot_summary scorer100 [tA] [tR]).2)
        - groupSumF (fun t => t.Taxable_Amount) (Cell.str "ACME CORPORATION") [tR] :=
  ⟨(C6_diff_and_unique scorer100 [tA] [tR]).2 "ACME CORPORATION" (by decide),
   ((C6_diff_and_unique scorer100 [tA] [tR]).1
      (mkAggRow (Cell.str "ACME CORPORATION")
        (some ⟨Cell.str "ACME CORPORATION", 1000, 90, 90, 0⟩)
        (some ⟨Cell.str "ACME CORPORATION", 1000, 90, 90, 0⟩)) (by decide)).1⟩

theorem map_party_filter (rows : List Txn) :
    (rows.filter fun t => decide (t.Party_Name ≠ Cell.null)).map (fun t => t.Party_Name)
      = (rows.map fun t => t.Party_Name).filter fun c => decide (c ≠ Cell.null) := by
  rw [List.filter_map]
  rfl

theorem filter_null_idem (l : List Cell) :
    (l.filter fun c => decide (c ≠ Cell.null)).filter (fun c => decide (c ≠ Cell.null))
      = l.filter fun c => decide (c ≠ Cell.null) := by
  rw [List.filter_filter]
  exact List.filter_congr fun c _ => Bool.and_self _

theorem parties_filter_null (rows : List Txn) :
    parties (rows.filter fun t => decide (t.Party_Name ≠ Cell.null)) = parties rows := by
  unfold parties
  rw [map_party_filter, filter_null_idem]

theorem groupSumF_filter_null (amt : Txn → Cell) (p : Cell) (rows : List Txn)
    (hp : p ≠ Cell.null) :
    groupSumF amt p (rows.filter fun t => decide (t.Party_Name ≠ Cell.null))
      = groupSumF amt p rows := by
  unfold groupSumF
  rw [List.filter_filter]
  refine congrArg (fun l : List Txn => (l.map fun t => cellInt (amt t)).sum) ?_
  refine List.filter_congr fun t _ => ?_
  by_cases h : t.Party_Name = p
  · simp [h, hp]
  · simp [h]

theorem groupbySum_filter_null (rows : List Txn) :
    groupbySum (rows.filter fun t => decide (t.Party_Name ≠ Cell.null)) = groupbySum rows := by
  rw [groupbySum_eq_map, groupbySum_eq_map, parties_filter_null]
  refine List.map_congr_left fun p hp => ?_
  have hpn : p ≠ Cell.null := parties_ne_null rows p hp
  unfold mkGRow
  rw [groupSumF_filter_null _ p rows hpn, groupSumF_filter_null _ p rows hpn,
    groupSumF_filter_null _ p rows hpn, groupSumF_filter_null _ p rows hpn]

/-- Exclusion of null-party records from the completing aggregator's value:
no comparison row carries a missing party name, and removing all
null-party records from either input leaves the comparison frame
unchanged (their amounts reach no row and no diff). -/
theorem pivot_no_null_party (scorer : String → String → Nat) (book ret : List Txn) :
    (∀ row ∈ (create_pivot_summary scorer book ret).1, row.Party_Name ≠ Cell.null) ∧
    (create_pivot_summary scorer (book.filter fun t => decide (t.Party_Name ≠ Cell.null))
        (ret.filter fun t => decide (t.Party_Name ≠ Cell.null))).1
      = (create_pivot_summary scorer book ret).1 := by
  constructor
  · intro row hrow
    exact (outerMergeAgg_diff ((create_pivot_summary scorer book ret).2) ret row hrow).1
  · have hgbm : ∀ x : Cell,
        get_best_match (cellScore scorer) x
          ((ret.filter fun t => decide (t.Party_Name ≠ Cell.null)).map fun u => u.Party_Name) 75
        = get_best_match (cellScore scorer) x (ret.map fun u => u.Party_Name) 75 := by
      intro x
      rw [map_party_filter]
      refine get_best_match_filter_zero (cellScore scorer) x _ _ 75 ?_ (by omega)
      intro a _ hfa
      have ha : a = Cell.null := Decidable.not_not.1 (of_decide_eq_false hfa)
      rw [ha]
      exact cellScore_null_right scorer x
    have hstep1 : ((book.filter fun t => decide (t.Party_Name ≠ Cell.null)).map fun t =>
        ({ t with Party_Name := get_best_match (cellScore scorer) t.Party_Name ((ret.filter fun u => decide (u.Party_Name ≠ Cell.null)).map fun u => u.Party_Name) 75 } : Txn))
        = (book.filter fun t => decide (t.Party_Name ≠ Cell.null)).map fun t =>
        ({ t with Party_Name := get_best_match (cellScore scorer) t.Party_Name (ret.map fun u => u.Party_Name) 75 } : Txn) :=
      List.map_congr_left fun t _ => by rw [hgbm]
    have hstep2 : ((book.map fun t =>
        ({ t with Party_Name := get_best_match (cellScore scorer) t.Party_Name (ret.map fun u => u.Party_Name) 75 } : Txn)).filter
          fun t => decide (t.Party_Name ≠ Cell.null))
        = (book.filter fun t => decide (t.Party_Name ≠ Cell.null)).map fun t =>
        ({ t with Party_Name := get_best_match (cellScore scorer) t.Party_Name (ret.map fun u => u.Party_Name) 75 } : Txn) := by
      rw [List.filter_map]
      refine congrArg _ ?_
      refine List.filter_congr fun t _ => ?_
      refine decide_eq_decide.2 ?_
      exact not_congr (canon_null_iff scorer (ret.map fun u => u.Party_Name) t.Party_Name)
    show outerMergeAgg
        (groupbySum ((book.filter fun t => decide (t.Party_Name ≠ Cell.null)).map fun t =>
          ({ t with Party_Name := get_best_match (cellScore scorer) t.Party_Name ((ret.filter fun u => decide (u.Party_Name ≠ Cell.null)).map fun u => u.Party_Name) 75 } : Txn)))
        (groupbySum (ret.filter fun t => decide (t.Party_Name ≠ Cell.null)))
      = outerMergeAgg
        (groupbySum (book.map fun t =>
          ({ t with Party_Name := get_best_match (cellScore scorer) t.Party_Name (ret.map fun u => u.Party_Name) 75 } : Txn)))
        (groupbySum ret)
    rw [hstep1, ← hstep2, groupbySum_filter_null, groupbySum_filter_null]

theorem reconcile_nil_right (xs : List Txn) :
    ∀ row ∈ reconcile_data xs [], row.merge = MergeLabel.NotInGSTR2A := by
  intro row hrow
  rcases (mem_reconcile_iff xs [] row).1 hrow with
    ⟨b, hb, r, hr, _, _⟩ | ⟨b, hb, _, rfl⟩ | ⟨r, hr, _, _⟩
  · cases hr
  · rfl
  · cases hr

theorem reconcile_nil_left (rt : List Txn) :
    ∀ row ∈ reconcile_data [] rt, row.merge = MergeLabel.NotInBooks := by
  intro row hrow
  rcases (mem_reconcile_iff [] rt row).1 hrow with
    ⟨b, hb, r, hr, _, _⟩ | ⟨b, hb, _, _⟩ | ⟨r, hr, _, rfl⟩
  · cases hb
  · cases hb
  · rfl

/-! Concrete raw frames for the failure-condition claim. -/

/-- The full nine-column schema of the two inputs. -/
def fullHeader : List String :=
  ["Invoice_Number", "Tax_Rate", "Taxable_Amount", "CGST", "SGST", "IGST",
   "Party_Name", "GSTIN", "Invoice_Date"]

/-- The raw row of `tA`. -/
def drowA : DRow :=
  [("Invoice_Number", Cell.str "A1"), ("Tax_Rate", Cell.int 18),
   ("Taxable_Amount", Cell.int 1000), ("CGST", Cell.int 90), ("SGST", Cell.int 90),
   ("IGST", Cell.int 0), ("Party_Name", Cell.str "Acme Corp"),
   ("GSTIN", Cell.str "G1"), ("Invoice_Date", Cell.str "2024-01-01")]

/-- A well-formed purchase frame with one row. -/
def bW : DF := ⟨fullHeader, [drowA]⟩

/-- A well-formed, empty GSTR2A frame. -/
def rW : DF := ⟨fullHeader, []⟩

/-- A purchase frame missing the `GSTIN` column. -/
def bNoGSTIN : DF :=
  ⟨["Invoice_Number", "Tax_Rate", "Taxable_Amount", "CGST", "SGST", "IGST",
    "Party_Name", "Invoice_Date"],
   [[("Invoice_Number", Cell.str "A1"), ("Tax_Rate", Cell.int 18),
     ("Taxable_Amount", Cell.int 1000), ("CGST", Cell.int 90), ("SGST", Cell.int 90),
     ("IGST", Cell.int 0), ("Party_Name", Cell.str "Acme Corp"),
     ("Invoice_Date", Cell.str "2024-01-01")]]⟩

/-- A purchase frame missing the `Invoice_Number` column. -/
def bNoInv : DF :=
  ⟨["Tax_Rate", "Taxable_Amount", "CGST", "SGST", "IGST",
    "Party_Name", "GSTIN", "Invoice_Date"],
   [[("Tax_Rate", Cell.int 18), ("Taxable_Amount", Cell.int 1000),
     ("CGST", Cell.int 90), ("SGST", Cell.int 90), ("IGST", Cell.int 0),
     ("Party_Name", Cell.str "Acme Corp"), ("GSTIN", Cell.str "G1"),
     ("Invoice_Date", Cell.str "2024-01-01")]]⟩

/-- C2, counterexample.  `GSTIN` is a required field of the data model, yet a
purchase input missing it reconciles without error (the claim demands a
schema failure); and with `Invoice_Number` missing the reconciler fails
while the aggregator succeeds, so the aggregator's failure condition is
not the reconciler's. -/
theorem C2_counterexample :
    "GSTIN" ∉ bNoGSTIN.header ∧ (reconcile_data_df bNoGSTIN rW).isOk = true ∧
    "Invoice_Number" ∉ bNoInv.header ∧ (reconcile_data_df bNoInv rW).isOk = false ∧
    (create_pivot_summary_df scorer0 bNoInv rW).isOk = true := by
  decide

/-- C2, amended.  The reconciler raises its schema error (a pandas KeyError)
iff some identity-key column is missing from either input or some
descriptive column is missing from both; the aggregator raises iff
`Party_Name` or one of the four tax columns is missing from either input
(a KeyError), or both inputs are non-empty and some `Party_Name` value of
either input is not a string — a missing name, on which the fuzzy-match
preprocessing of line 36 raises TypeError.  Emptiness never raises: with
the schema intact, two empty inputs yield an empty result and a single
empty input yields an all-one-sided result. -/
theorem C2_amended (scorer : String → String → Nat) (b r : DF) :
    ((reconcile_data_df b r).isOk = true ↔
      ((∀ k ∈ primary_keys, b.header.contains k = true ∧ r.header.contains k = true) ∧
        ∀ k ∈ additional_keys, b.header.contains k = true ∨ r.header.contains k = true)) ∧
    ((create_pivot_summary_df scorer b r).isOk = true ↔
      ((∀ k ∈ pivot_fields, b.header.contains k = true ∧ r.header.contains k = true) ∧
        (b.rows = [] ∨ r.rows = [] ∨
          ((∀ row ∈ b.rows, isStrCell (cellAt b.header row "Party_Name") = true) ∧
            ∀ row ∈ r.rows, isStrCell (cellAt r.header row "Party_Name") = true)))) ∧
    (∀ out, reconcile_data_df b r = Except.ok out →
      ((b.rows = [] → r.rows = [] → out.rows = []) ∧
       (r.rows = [] → ∀ row ∈ out.rows, row.lookup "_merge" = some (Cell.str "Not in GSTR2A")) ∧
       (b.rows = [] → ∀ row ∈ out.rows, row.lookup "_merge" = some (Cell.str "Not in Books")))) := by
  refine ⟨?_, ?_, ?_⟩
  · unfold reconcile_data_df
    by_cases h1 : (primary_keys.all b.header.contains && primary_keys.all r.header.contains) = true
    · rw [if_pos h1]
      have h1' := Bool.and_eq_true _ _ ▸ h1
      by_cases h2 : (additional_keys.all fun k => b.header.contains k || r.header.contains k) = true
      · rw [if_pos h2]
        refine iff_of_true rfl ⟨?_, ?_⟩
        · intro k hk
          exact ⟨List.all_eq_true.1 h1'.1 k hk, List.all_eq_true.1 h1'.2 k hk⟩
        · intro k hk
          exact Bool.or_eq_true _ _ ▸ List.all_eq_true.1 h2 k hk
      · rw [if_neg h2]
        refine iff_of_false (by decide) ?_
        rintro ⟨_, hadd⟩
        refine h2 (List.all_eq_true.2 fun k hk => ?_)
        exact (Bool.or_eq_true _ _).symm ▸ hadd k hk
    · rw [if_neg h1]
      refine iff_of_false (by decide) ?_
      rintro ⟨hpk, _⟩
      refine h1 ((Bool.and_eq_true _ _).symm ▸ ⟨?_, ?_⟩)
      · exact List.all_eq_true.2 fun k hk => (hpk k hk).1
      · exact List.all_eq_true.2 fun k hk => (hpk k hk).2
  · unfold create_pivot_summary_df
    by_cases h1 : r.header.contains "Party_Name" = true
    · rw [if_pos h1]
      by_cases h2 : b.header.contains "Party_Name" = true
      · rw [if_pos h2]
        by_cases h3 : (b.rows.isEmpty || r.rows.isEmpty ||
            ((b.rows.all fun row => isStrCell (cellAt b.header row "Party_Name")) &&
              (r.rows.all fun row => isStrCell (cellAt r.header row "Party_Name")))) = true
        · rw [if_pos h3]
          by_cases h4 : (["Taxable_Amount", "CGST", "SGST", "IGST"].all b.header.contains) = true
          · rw [if_pos h4]
            by_cases h5 : (["Taxable_Amount", "CGST", "SGST", "IGST"].all r.header.contains) = true
            · rw [if_pos h5]
              refine iff_of_true rfl ⟨?_, ?_⟩
              · intro k hk
                rcases List.mem_cons.1 hk with rfl | hk'
                · exact ⟨h2, h1⟩
                · exact ⟨List.all_eq_true.1 h4 k hk', List.all_eq_true.1 h5 k hk'⟩
              · simpa only [Bool.or_eq_true, Bool.and_eq_true, List.isEmpty_iff,
                  List.all_eq_true, or_assoc] using h3
            · rw [if_neg h5]
              refine iff_of_false (by decide) ?_
              rintro ⟨hall, _⟩
              exact h5 (List.all_eq_true.2 fun k hk => (hall k (List.mem_cons_of_mem _ hk)).2)
          · rw [if_neg h4]
            refine iff_of_false (by decide) ?_
            rintro ⟨hall, _⟩
            exact h4 (List.all_eq_true.2 fun k hk => (hall k (List.mem_cons_of_mem _ hk)).1)
        · rw [if_neg h3]
          refine iff_of_false (by decide) ?_
          rintro ⟨_, hcond⟩
          refine h3 ?_
          simpa only [Bool.or_eq_true, Bool.and_eq_true, List.isEmpty_iff,
            List.all_eq_true, or_assoc] using hcond
      · rw [if_neg h2]
        refine iff_of_false (by decide) ?_
        rintro ⟨hall, _⟩
        exact h2 (hall "Party_Name" (List.mem_cons_self _ _)).1
    · rw [if_neg h1]
      refine iff_of_false (by decide) ?_
      rintro ⟨hall, _⟩
      exact h1 (hall "Party_Name" (List.mem_cons_self _ _)).2
  · intro out hout
    unfold reconcile_data_df at hout
    by_cases h1 : (primary_keys.all b.header.contains && primary_keys.all r.header.contains) = true
    · rw [if_pos h1] at hout
      by_cases h2 : (additional_keys.all fun k => b.header.contains k || r.header.contains k) = true
      · rw [if_pos h2] at hout
        have hout' : out = ⟨final_columns_order,
            (reconcile_data (b.rows.map (toTxn b.header))
              (r.rows.map (toTxn r.header))).map rrowToDRow⟩ := (Except.ok.inj hout).symm
        subst hout'
        refine ⟨?_, ?_, ?_⟩
        · intro hb hr
          show (reconcile_data (b.rows.map (toTxn b.header))
            (r.rows.map (toTxn r.header))).map rrowToDRow = []
          rw [hb, hr]
          rfl
        · intro hr row hrow
          rw [hr] at hrow
          rcases List.mem_map.1 hrow with ⟨rrow, hrr, rfl⟩
          have hlk : (rrowToDRow rrow).lookup "_merge" = some (statusCell rrow.merge) := rfl
          rw [hlk, reconcile_nil_right (b.rows.map (toTxn b.header)) rrow hrr]
          rfl
        · intro hb row hrow
          rw [hb] at hrow
          rcases List.mem_map.1 hrow with ⟨rrow, hrr, rfl⟩
          have hlk : (rrowToDRow rrow).lookup "_merge" = some (statusCell rrow.merge) := rfl
          rw [hlk, reconcile_nil_left (r.rows.map (toTxn r.header)) rrow hrr]
          rfl
      · rw [if_neg h2] at hout
        simp at hout
    · rw [if_neg h1] at hout
      simp at hout

/-- C2, witness: the amended theorem applied to an intact schema with one
purchase row and an empty GSTR2A frame (empty-but-present input is valid
and yields an all-one-sided result). -/
theorem C2_witness :
    (reconcile_data_df bW rW).isOk = true ∧
    (∀ row ∈ (DF.mk final_columns_order [rrowToDRow (leftRow tA)]).rows,
      row.lookup "_merge" = some (Cell.str "Not in GSTR2A")) :=
  ⟨((C2_amended scorer0 bW rW).1).mpr (by decide),
   ((C2_amended scorer0 bW rW).2.2 (DF.mk final_columns_order [rrowToDRow (leftRow tA)])
      rfl).2.1 rfl⟩

/-- C4, confirmed.  With an empty reference list the name is returned
unchanged; when some reference entry attains the highest score and that
score strictly exceeds the cutoff, the returned value is a reference
entry carrying the (strictly above-cutoff) maximal score; and when every
score is at most the cutoff the name is returned unchanged. -/
theorem C4_best_match {α : Type} (scorer : α → α → Nat) (name : α) (choices : List α)
    (cutoff : Nat) :
    (choices = [] → get_best_match scorer name choices cutoff = name) ∧
    (∀ c ∈ choices, (∀ d ∈ choices, scorer name d ≤ scorer name c) →
      cutoff < scorer name c →
      get_best_match scorer name choices cutoff ∈ choices ∧
      cutoff < scorer name (get_best_match scorer name choices cutoff) ∧
      ∀ d ∈ choices, scorer name d ≤ scorer name (get_best_match scorer name choices cutoff)) ∧
    ((∀ c ∈ choices, scorer name c ≤ cutoff) →
      get_best_match scorer name choices cutoff = name) := by
  refine ⟨?_, ?_, ?_⟩
  · rintro rfl
    rfl
  · intro c hc hmax hcut
    rcases he : extractOne scorer name choices with _ | ⟨m, s⟩
    · rw [(extractOne_eq_none scorer name choices).1 he] at hc
      exact absurd hc (List.not_mem_nil c)
    · obtain ⟨hm, hs, hall⟩ := extractOne_max scorer name he
      have hcuts : cutoff < s := lt_of_lt_of_le hcut (hall c hc)
      rw [get_best_match_of_some scorer name choices cutoff he, if_pos hcuts]
      refine ⟨hm, ?_, ?_⟩
      · rw [hs]
        exact hcuts
      · intro d hd
        rw [hs]
        exact hall d hd
  · intro hbelow
    rcases he : extractOne scorer name choices with _ | ⟨m, s⟩
    · exact get_best_match_of_none scorer name choices cutoff he
    · obtain ⟨hm, hs, _⟩ := extractOne_max scorer name he
      have hng : ¬ s > cutoff := by
        rw [← hs]
        exact not_lt.2 (hbelow m hm)
      rw [get_best_match_of_some scorer name choices cutoff he, if_neg hng]

/-- C4, witness: the contract applied to a one-entry reference list whose
entry scores 3 against cutoff 2, and (separately, inside the proof) the
claim theorem discharged at its hypotheses. -/
theorem C4_witness :
    get_best_match scorerLen "zz" ["aaa"] 2 ∈ ["aaa"] ∧
    2 < scorerLen "zz" (get_best_match scorerLen "zz" ["aaa"] 2) ∧
    ∀ d ∈ ["aaa"], scorerLen "zz" d ≤ scorerLen "zz" (get_best_match scorerLen "zz" ["aaa"] 2) :=
  (C4_best_match scorerLen "zz" ["aaa"] 2).2.1 "aaa" (by decide) (by decide) (by decide)

/-- C8, counterexample.  The claim says a tie for the highest score is
resolved to the earliest reference entry; but when the tied highest score
does not exceed the threshold the name itself is returned, not a
reference entry. -/
theorem C8_counterexample :
    scorer0 "z" "a" = scorer0 "z" "b" ∧
    get_best_match scorer0 "z" ["a", "b"] 75 = "z" ∧
    get_best_match scorer0 "z" ["a", "b"] 75 ≠ "a" := by
  decide

/-- C8, amended.  When the highest similarity score strictly exceeds the
cutoff, `get_best_match` returns the earliest reference entry attaining
it: the entry before which all entries score strictly less and after
which all entries score no more (ties included). -/
theorem C8_amended {α : Type} (scorer : α → α → Nat) (name : α) (cutoff : Nat)
    (l₁ l₂ : List α) (c : α)
    (h1 : ∀ a ∈ l₁, scorer name a < scorer name c)
    (h2 : ∀ a ∈ l₂, scorer name a ≤ scorer name c)
    (h3 : cutoff < scorer name c) :
    get_best_match scorer name (l₁ ++ c :: l₂) cutoff = c := by
  rw [get_best_match_of_some scorer name _ cutoff
    (extractOne_of_split scorer name l₁ l₂ c h1 h2), if_pos h3]

/-- C8, witness: "aa" and "bb" tie at score 2 above cutoff 1, with a
lower-scoring entry before them; the first tied entry is returned. -/
theorem C8_witness : get_best_match scorerLen "zz" (["x"] ++ "aa" :: ["bb"]) 1 = "aa" :=
  C8_amended scorerLen "zz" 1 ["x"] ["bb"] "aa" (by decide) (by decide) (by decide)

/-- C10, counterexample.  The claim says a record with a missing party name
is silently excluded from the grouped sums.  With both inputs non-empty,
the aggregator never reaches its group-by: line 36's preprocessing of the
missing name raises TypeError, so nothing is excluded — there is no
output at all. -/
theorem C10_counterexample :
    tN.Party_Name = Cell.null ∧
    (create_pivot_summary_run scorer0 [tN] [tR]).isOk = false := by
  decide

/-- C10, amended.  The aggregator raises (TypeError) exactly when both
inputs are non-empty and some record of either input has a non-string
(missing) party name; whenever it completes instead, null-party records
are silently excluded from the grouped sums: no comparison row carries a
missing party name, and removing all null-party records from either
input leaves the comparison frame unchanged. -/
theorem C10_amended (scorer : String → String → Nat) (book ret : List Txn) :
    ((create_pivot_summary_run scorer book ret).isOk = false ↔
      (book ≠ [] ∧ ret ≠ [] ∧
        ((∃ t ∈ book, isStrCell t.Party_Name = false) ∨
          ∃ t ∈ ret, isStrCell t.Party_Name = false))) ∧
    (∀ out, create_pivot_summary_run scorer book ret = Except.ok out →
      (∀ row ∈ out.1, row.Party_Name ≠ Cell.null) ∧
      (create_pivot_summary scorer (book.filter fun t => decide (t.Party_Name ≠ Cell.null))
          (ret.filter fun t => decide (t.Party_Name ≠ Cell.null))).1 = out.1) := by
  constructor
  · unfold create_pivot_summary_run
    by_cases hg : (book.isEmpty || ret.isEmpty ||
        ((book.all fun t => isStrCell t.Party_Name) &&
          (ret.all fun t => isStrCell t.Party_Name))) = true
    · rw [if_pos hg]
      refine iff_of_false (fun h => Bool.noConfusion h) ?_
      rintro ⟨hb, hr, hex⟩
      simp only [Bool.or_eq_true, Bool.and_eq_true, List.isEmpty_iff, List.all_eq_true,
        or_assoc] at hg
      rcases hg with h | h | ⟨hab, har⟩
      · exact hb h
      · exact hr h
      · rcases hex with ⟨t, ht, hf⟩ | ⟨t, ht, hf⟩
        · rw [hab t ht] at hf
          cases hf
        · rw [har t ht] at hf
          cases hf
    · rw [if_neg hg]
      refine iff_of_true rfl ?_
      simp only [Bool.or_eq_true, Bool.and_eq_true, List.isEmpty_iff, List.all_eq_true,
        or_assoc] at hg
      have hb : book ≠ [] := fun h => hg (Or.inl h)
      have hr : ret ≠ [] := fun h => hg (Or.inr (Or.inl h))
      have hcd : ¬ ((∀ t ∈ book, isStrCell t.Party_Name = true) ∧
          ∀ t ∈ ret, isStrCell t.Party_Name = true) := fun h => hg (Or.inr (Or.inr h))
      refine ⟨hb, hr, ?_⟩
      by_cases hab : ∀ t ∈ book, isStrCell t.Party_Name = true
      · have har : ¬ ∀ t ∈ ret, isStrCell t.Party_Name = true := fun h => hcd ⟨hab, h⟩
        push_neg at har
        obtain ⟨t, ht, hf⟩ := har
        refine Or.inr ⟨t, ht, ?_⟩
        revert hf
        cases isStrCell t.Party_Name <;> simp
      · push_neg at hab
        obtain ⟨t, ht, hf⟩ := hab
        refine Or.inl ⟨t, ht, ?_⟩
        revert hf
        cases isStrCell t.Party_Name <;> simp
  · intro out hout
    unfold create_pivot_summary_run at hout
    by_cases hg : (book.isEmpty || ret.isEmpty ||
        ((book.all fun t => isStrCell t.Party_Name) &&
          (ret.all fun t => isStrCell t.Party_Name))) = true
    · rw [if_pos hg] at hout
      have hout2 : out = create_pivot_summary scorer book ret := (Except.ok.inj hout).symm
      subst hout2
      exact ⟨(pivot_no_null_party scorer book ret).1, (pivot_no_null_party scorer book ret).2⟩
    · rw [if_neg hg] at hout
      simp at hout

/-- C10, witness: the amended theorem applied to a crashing run (null-party
purchase record against a non-empty GSTR2A side) and to a completing run
(the same record against an empty GSTR2A side). -/
theorem C10_witness :
    (create_pivot_summary_run scorer0 [tN] [tR]).isOk = false ∧
    (∀ row ∈ (create_pivot_summary scorer0 [tN] []).1, row.Party_Name ≠ Cell.null) ∧
    (create_pivot_summary scorer0 ([tN].filter fun t => decide (t.Party_Name ≠ Cell.null))
        (([] : List Txn).filter fun t => decide (t.Party_Name ≠ Cell.null))).1
      = (create_pivot_summary scorer0 [tN] []).1 :=
  ⟨(C10_amended scorer0 [tN] [tR]).1.mpr (by decide),
   ((C10_amended scorer0 [tN] []).2 (create_pivot_summary scorer0 [tN] []) rfl).1,
   ((C10_amended scorer0 [tN] []).2 (create_pivot_summary scorer0 [tN] []) rfl).2⟩
